import Mathlib

/-!
Verification development for the promo-backend prize-draw service.

The Go sources are shallowly embedded in Lean: pure functions become Lean
functions, the CSPRNG becomes an explicit stream of 32-bit words
(`Nat → Nat`, reduced mod 2^32 at each use), fallible code returns
`Except`, and the database becomes an explicit state record threaded
through the handler models.  Machine integers are modelled as `Nat` with
explicit `% 2^32` where Go converts to `uint32`.
-/

deriving instance DecidableEq for Except

namespace Promo

/-- One participant's aggregate weight for a window
(`internal/models`: `EligibleEntry`). -/
structure EligibleEntry where
  msisdn : String
  points : Nat
deriving Repr, DecidableEq

/-- A pool entry with cumulative weight (`internal/models`: `WeightedEntry`). -/
structure WeightedEntry where
  msisdn : String
  weight : Nat
  cumsum : Nat
deriving Repr, DecidableEq

/-- One prize tier (`internal/models`: `PrizeTier`); UUIDs are modelled as `Nat`. -/
structure PrizeTier where
  id : Nat
  tierName : String
  amount : Nat
  quantity : Nat
  runnerUpCount : Nat
  orderIndex : Nat
deriving Repr, DecidableEq

/-- Lexicographic order on character lists by code point. -/
def charListLeB : List Char → List Char → Bool
  | [], _ => true
  | _ :: _, [] => false
  | a :: as, b :: bs =>
    if a.toNat < b.toNat then true
    else if b.toNat < a.toNat then false
    else charListLeB as bs

/-- Lexicographic string order, executable in the kernel. -/
def strLeB (a b : String) : Bool := charListLeB a.data b.data

/-- Ordered insertion for a Boolean comparator. -/
def insertLe (le : α → α → Bool) (a : α) : List α → List α
  | [] => [a]
  | b :: bs => if le a b then a :: b :: bs else b :: insertLe le a bs

/-- Insertion sort for a Boolean comparator (a stable model of Go's
`sort.Slice`). -/
def sortLe (le : α → α → Bool) : List α → List α
  | [] => []
  | a :: as => insertLe le a (sortLe le as)

/-- Sum of the weights of a pool given as (msisdn, weight) pairs. -/
def weightSum (pool : List (String × Nat)) : Nat :=
  (pool.map (·.2)).sum

/-- Cumulative-sum construction: `cum += weight; cumsum = cum`
(generator.go lines 60 to 65, rebuilt after each removal). -/
def buildCum (acc : Nat) : List (String × Nat) → List WeightedEntry
  | [] => []
  | p :: rest => ⟨p.1, p.2, acc + p.2⟩ :: buildCum (acc + p.2) rest

/-- Total points a given msisdn holds across the raw entries. -/
def msisdnPoints (entries : List EligibleEntry) (m : String) : Nat :=
  ((entries.filter (fun e => e.msisdn == m)).map (·.points)).sum

/-- Canonical pool: distinct msisdns in ascending order, coalesced by
summation (spec data model for EligibleEntry and step 1 of the draw
protocol). -/
def poolOf (entries : List EligibleEntry) : List (String × Nat) :=
  (sortLe strLeB (entries.map (·.msisdn)).dedup).map
    (fun m => (m, msisdnPoints entries m))

/-- Removal of every pool entry holding a given msisdn. -/
def removeAll (pool : List (String × Nat)) (m : String) : List (String × Nat) :=
  pool.filter (fun p => p.1 != m)

end Promo

namespace Promo.Engine

/-- Errors of the sampler and draw engine. -/
inductive RngError where
  | emptyPool
  | indexOutOfRange
  | exhaustedCandidates
deriving Repr, DecidableEq

/-- Modelled from the spec: the weighted sampler of section 4.2.  The Go
implementation called by the current handler is absent from the
snapshot; this follows the spec's words: draw a 32-bit word `u`, reduce
`r = u mod totalPoints`, return the msisdn at the smallest index whose
cumulative weight exceeds `r`; fail with `EmptyPool` when
`totalPoints ≤ 0` and with `IndexOutOfRange` when no index qualifies. -/
def pickOneMSISDN (weighted : List WeightedEntry) (totalPoints : Nat) (u : Nat) :
    Except RngError String :=
  if totalPoints = 0 then .error .emptyPool
  else
    let r := (u % 4294967296) % totalPoints
    match weighted.find? (fun e => decide (r < e.cumsum)) with
    | some e => .ok e.msisdn
    | none => .error .indexOutOfRange

/-- Modelled from the spec: acceptance rule of section 4.3 step 4a.  A
candidate is accepted iff it is not in `selectedThisDraw` and not
recorded in `pastWinsByTier[candidate]` for this same tier id. -/
def accept (selected : List String) (pastWins : String → Nat → Bool)
    (tierId : Nat) (m : String) : Bool :=
  !(selected.contains m) && !(pastWins m tierId)

/-- Modelled from the spec: the per-slot attempt cap of section 4.3. -/
def attemptCap : Nat := 20000

/-- Result of attempting to fill one selection slot. -/
inductive SlotResult where
  | ok (m : String) (k : Nat)
  | exhausted (k : Nat)
  | err (e : RngError) (k : Nat)
deriving Repr, DecidableEq

/-- Next random index recorded in a slot result. -/
def slotK : SlotResult → Nat
  | .ok _ k => k
  | .exhausted k => k
  | .err _ k => k

/-- Mutable engine state: the remaining pool as (msisdn, weight) pairs,
the msisdns selected so far this draw, and the index of the next random
word to consume. -/
structure EngineState where
  pool : List (String × Nat)
  selected : List String
  k : Nat
deriving Repr, DecidableEq

/-- Modelled from the spec: fill one slot, retrying rejected candidates
up to the attempt cap (section 4.3, Boundedness).  The cumulative vector
is the one rebuilt after the last removal.  Exceeding the cap yields
exhaustion; sampler errors are surfaced. -/
def drawSlot (rand : Nat → Nat) (pastWins : String → Nat → Bool) (tierId : Nat)
    (pool : List (String × Nat)) (selected : List String) :
    Nat → Nat → SlotResult
  | 0, k => .exhausted k
  | fuel+1, k =>
    match pickOneMSISDN (buildCum 0 pool) (weightSum pool) (rand k) with
    | .error e => .err e (k+1)
    | .ok m =>
      if accept selected pastWins tierId m then .ok m (k+1)
      else drawSlot rand pastWins tierId pool selected fuel (k+1)

/-- Modelled from the spec: fill up to `n` slots for one tier phase
(section 4.3 steps 4a, 4b, 5).  Stops without error when the pool has no
tickets left ("pool exhausted mid-tier: break out"); an exhausted slot
stops the phase and flags the tier as aborted so the remaining slots of
the tier are skipped; each accepted msisdn is removed entirely from the
pool and appended to `selectedThisDraw`. -/
def drawSlots (rand : Nat → Nat) (pastWins : String → Nat → Bool) (tierId : Nat) :
    Nat → EngineState → Except RngError (List String × EngineState × Bool)
  | 0, st => .ok ([], st, false)
  | n+1, st =>
    if weightSum st.pool = 0 then .ok ([], st, false)
    else
      match drawSlot rand pastWins tierId st.pool st.selected attemptCap st.k with
      | .err e _ => .error e
      | .exhausted k => .ok ([], ⟨st.pool, st.selected, k⟩, true)
      | .ok m k =>
        match drawSlots rand pastWins tierId n ⟨removeAll st.pool m, st.selected ++ [m], k⟩ with
        | .error e => .error e
        | .ok (ms, st', ab) => .ok (m :: ms, st', ab)

/-- The engine's winner record (spec section 4.3 output), tagged in
addition with the id of the tier that produced it — the handler recovers
the same id by tier-name lookup when persisting. -/
structure WinnerResult where
  tierName : String
  tierId : Nat
  msisdn : String
  position : Nat
  isRunnerUp : Bool
deriving Repr, DecidableEq

/-- Position assignment: consecutive positions starting from `pos`
(spec section 4.3 step 4c). -/
def positionsFrom (tier : PrizeTier) (ru : Bool) : Nat → List String → List WinnerResult
  | _, [] => []
  | pos, m :: ms => ⟨tier.tierName, tier.id, m, pos, ru⟩ :: positionsFrom tier ru (pos+1) ms

/-- Modelled from the spec: one tier of the draw protocol (section 4.3
step 4).  Draw up to `quantity` mains; let `M` be the number actually
drawn; unless the main phase hit the attempt cap, draw up to
`M × runnerUpCount` runner-ups; positions start at 1 and restart at 1
for runner-ups; `isRunnerUp` marks the runner-ups. -/
def drawTier (rand : Nat → Nat) (pastWins : String → Nat → Bool)
    (tier : PrizeTier) (st : EngineState) :
    Except RngError (List WinnerResult × EngineState) :=
  match drawSlots rand pastWins tier.id tier.quantity st with
  | .error e => .error e
  | .ok (mains, st1, aborted) =>
    let mainWinners := positionsFrom tier false 1 mains
    if aborted then .ok (mainWinners, st1)
    else
      match drawSlots rand pastWins tier.id (mains.length * tier.runnerUpCount) st1 with
      | .error e => .error e
      | .ok (runners, st2, _) => .ok (mainWinners ++ positionsFrom tier true 1 runners, st2)

/-- Tier-by-tier loop over an already ordered tier list. -/
def drawTiers (rand : Nat → Nat) (pastWins : String → Nat → Bool) :
    List PrizeTier → EngineState → Except RngError (List WinnerResult)
  | [], _ => .ok []
  | t :: ts, st =>
    match drawTier rand pastWins t st with
    | .error e => .error e
    | .ok (ws, st') =>
      match drawTiers rand pastWins ts st' with
      | .error e => .error e
      | .ok rest => .ok (ws ++ rest)

/-- Tiers in ascending orderIndex (spec section 4.3 step 3). -/
def sortTiers (tiers : List PrizeTier) : List PrizeTier :=
  sortLe (fun a b => decide (a.orderIndex ≤ b.orderIndex)) tiers

/-- Modelled from the spec: the draw engine of section 4.3, whose Go
implementation (the `rng.DrawWinners` called by the current handler in
src/unnamed/part_000 with a tier-keyed past-wins map) is absent from the
snapshot.  Builds the coalesced, canonically sorted, cumulatively
weighted pool, then runs the tier protocol. -/
def DrawWinners (rand : Nat → Nat) (entries : List EligibleEntry)
    (tiers : List PrizeTier) (pastWins : String → Nat → Bool) :
    Except RngError (List WinnerResult) :=
  drawTiers rand pastWins (sortTiers tiers) ⟨poolOf entries, [], 0⟩

end Promo.Engine

namespace Promo.RngV1

/-- A drawn result of the legacy generator
(src/internal/rng/generator.go lines 33 to 38). -/
structure WinnerResult where
  tierName : String
  msisdn : String
  position : Nat
  pointsUsed : Nat
deriving Repr, DecidableEq

/-- Failure modes of the legacy sampler: the Go runtime panic raised by
`u32 % uint32(totalPoints)` when the divisor is zero, and the explicit
"rng: index out of range" error of generator.go line 85. -/
inductive RngFailure where
  | divideByZero
  | indexOutOfRange
deriving Repr, DecidableEq

/-- Embedding of BuildWeightedEntries
(src/internal/rng/generator.go lines 41 to 68): weights are the raw
points (no coalescing), entries are sorted by msisdn, cumulative sums
are computed, and totalPoints is the sum of all points.  Go's
`sort.Slice` leaves the order of equal msisdns unspecified; a stable
insertion sort is one admissible refinement. -/
def BuildWeightedEntries (entries : List EligibleEntry) : List WeightedEntry × Nat :=
  let totalPoints := (entries.map (·.points)).sum
  let sorted := sortLe (fun a b => strLeB a.1 b.1)
      (entries.map (fun e => (e.msisdn, e.points)))
  (buildCum 0 sorted, totalPoints)

/-- Embedding of pickOneMSISDN
(src/internal/rng/generator.go lines 71 to 88): reduce the 32-bit word
modulo `uint32(totalPoints)` — a divide-by-zero panic when that
conversion yields 0 — then take the first entry whose cumulative sum
exceeds the reduced value, failing when none does. -/
def pickOneMSISDN (weighted : List WeightedEntry) (totalPoints : Nat) (u : Nat) :
    Except RngFailure String :=
  if totalPoints % 4294967296 = 0 then .error .divideByZero
  else
    let r := (u % 4294967296) % (totalPoints % 4294967296)
    match weighted.find? (fun e => decide (r < e.cumsum)) with
    | some e => .ok e.msisdn
    | none => .error .indexOutOfRange

/-- Removal step of the legacy generator (generator.go lines 126 to
144): keep the entries of other msisdns, as (msisdn, weight) pairs. -/
def removeAllW (pool : List WeightedEntry) (m : String) : List (String × Nat) :=
  (pool.filter (fun we => we.msisdn != m)).map (fun we => (we.msisdn, we.weight))

/-- Embedding of the main-winner loop of the legacy generator
(generator.go lines 107 to 145): for each of the `n` slots draw one
msisdn; a past winner burns the slot (`continue`); otherwise the msisdn
is marked, recorded at the running position, and removed from the pool
with totals and cumulative sums rebuilt. -/
def drawMains (rand : Nat → Nat) (tier : PrizeTier) :
    Nat → List WeightedEntry → Nat → List String → Nat → Nat →
    Except RngFailure (List WinnerResult × List WeightedEntry × Nat × List String × Nat × Nat)
  | 0, pool, total, past, position, k => .ok ([], pool, total, past, position, k)
  | n+1, pool, total, past, position, k =>
    match pickOneMSISDN pool total (rand k) with
    | .error e => .error e
    | .ok m =>
      if past.contains m then
        drawMains rand tier n pool total past position (k+1)
      else
        let pairs := removeAllW pool m
        match drawMains rand tier n (buildCum 0 pairs) (weightSum pairs)
            (past ++ [m]) (position+1) (k+1) with
        | .error e => .error e
        | .ok (ws, p2, t2, pa2, po2, k2) =>
          .ok (⟨tier.tierName, m, position, 0⟩ :: ws, p2, t2, pa2, po2, k2)

/-- Embedding of the runner-up loop of the legacy generator
(generator.go lines 148 to 182): identical to the main loop except that
the past-winner set is never consulted — every draw is recorded. -/
def drawRunnerUps (rand : Nat → Nat) (tier : PrizeTier) :
    Nat → List WeightedEntry → Nat → List String → Nat → Nat →
    Except RngFailure (List WinnerResult × List WeightedEntry × Nat × List String × Nat × Nat)
  | 0, pool, total, past, position, k => .ok ([], pool, total, past, position, k)
  | n+1, pool, total, past, position, k =>
    match pickOneMSISDN pool total (rand k) with
    | .error e => .error e
    | .ok m =>
      let pairs := removeAllW pool m
      match drawRunnerUps rand tier n (buildCum 0 pairs) (weightSum pairs)
          (past ++ [m]) (position+1) (k+1) with
      | .error e => .error e
      | .ok (ws, p2, t2, pa2, po2, k2) =>
        .ok (⟨tier.tierName, m, position, 0⟩ :: ws, p2, t2, pa2, po2, k2)

/-- Embedding of the tier loop body of the legacy generator
(generator.go lines 102 to 186). -/
def drawTierV1 (rand : Nat → Nat) (tier : PrizeTier)
    (pool : List WeightedEntry) (total : Nat) (past : List String) (k : Nat) :
    Except RngFailure (List WinnerResult × List WeightedEntry × Nat × List String × Nat) :=
  match drawMains rand tier tier.quantity pool total past 1 k with
  | .error e => .error e
  | .ok (mains, p1, t1, pa1, po1, k1) =>
    match drawRunnerUps rand tier tier.runnerUpCount p1 t1 pa1 po1 k1 with
    | .error e => .error e
    | .ok (runners, p2, t2, pa2, _, k2) =>
      .ok (mains ++ runners, p2, t2, pa2, k2)

/-- Embedding of the legacy DrawWinners
(src/internal/rng/generator.go lines 92 to 189), the Go result map
modelled as an association list in tier order. -/
def DrawWinners (rand : Nat → Nat) (entries : List EligibleEntry)
    (tiers : List PrizeTier) (pastWinners : List String) :
    Except RngFailure (List (String × List WinnerResult)) :=
  let built := BuildWeightedEntries entries
  go tiers built.1 built.2 pastWinners 0
where
  /-- Tier recursion threading pool, totals, the mutated past-winner
  set and the random index. -/
  go : List PrizeTier → List WeightedEntry → Nat → List String → Nat →
      Except RngFailure (List (String × List WinnerResult))
    | [], _, _, _, _ => .ok []
    | t :: ts, pool, total, past, k =>
      match drawTierV1 rand t pool total past k with
      | .error e => .error e
      | .ok (ws, p', t', pa', k') =>
        match go ts p' t' pa' k' with
        | .error e => .error e
        | .ok rest => .ok ((t.tierName, ws) :: rest)

end Promo.RngV1

namespace Promo.HandlersV1

/-- One CSV row of the draw request
(src/internal/handlers/draw.go lines 20 to 23). -/
structure MSISDNEntry where
  msisdn : String
  points : Nat
deriving Repr, DecidableEq

/-- Embedding of the CSV-mode expansion of the legacy handler
(src/internal/handlers/draw.go lines 93 to 101): each request row is
expanded into `points` copies of an EligibleEntry whose Points field is
left at its zero value. -/
def expandEntries (rows : List MSISDNEntry) : List EligibleEntry :=
  rows.foldl (fun acc row => acc ++ List.replicate row.points ⟨row.msisdn, 0⟩) []

end Promo.HandlersV1

namespace Promo.Handlers

/-- A persisted draw row (current models, src/unnamed/part_007); dates
are absolute local day numbers, UUIDs are `Nat`. -/
structure Draw where
  id : Nat
  drawDate : Int
  prizeStructureId : Nat
  totalEntries : Nat
  adminUserId : Nat
  source : String
  isRerun : Bool
deriving Repr, DecidableEq

/-- A persisted winner row (current models, src/unnamed/part_007). -/
structure WinnerRow where
  id : Nat
  drawId : Nat
  prizeTierId : Nat
  msisdn : String
  position : Nat
  isRunnerUp : Bool
deriving Repr, DecidableEq

/-- A prize structure with its tiers, preloaded in ascending orderIndex. -/
structure PrizeStructureRec where
  id : Nat
  tiers : List PrizeTier
deriving Repr, DecidableEq

/-- The relational store visible to the draw handlers. -/
structure DBState where
  draws : List Draw
  winners : List WinnerRow
  structures : List PrizeStructureRec
deriving Repr, DecidableEq

/-- Handler outcomes, mirroring the HTTP responses of the current
handlers (src/unnamed/part_000). -/
inductive DrawOutcome where
  | conflict (existingId : Nat) (rerunEligible : Bool)
  | badRequest (msg : String)
  | notFound (msg : String)
  | serverError (msg : String)
  | ok (winners : List WinnerRow)
deriving Repr, DecidableEq

/-- The validated draw request (src/unnamed/part_000 lines 24 to 28);
request rows are converted one-for-one into EligibleEntry with the same
points (lines 96 to 98). -/
structure DrawRequest where
  drawDate : Int
  prizeStructureId : Nat
  msisdnEntries : List EligibleEntry
deriving Repr, DecidableEq

/-- Embedding of the past-winner aggregation of the current handlers
(src/unnamed/part_000 lines 112 to 120): all historical winners, keyed
by msisdn and prize-tier id. -/
def pastWinsByTier (db : DBState) : String → Nat → Bool :=
  fun m tid => db.winners.any (fun w => w.msisdn == m && w.prizeTierId == tid)

/-- Tier-id lookup by tier name used when persisting winners
(src/unnamed/part_000 lines 141 to 144); the zero UUID when absent. -/
def tierIdFor (tiers : List PrizeTier) (name : String) : Nat :=
  match tiers.find? (fun pt => pt.tierName == name) with
  | some pt => pt.id
  | none => 0

/-- Sequential winner inserts inside the transaction; `failAt n` says
the n-th write of the transaction fails (write 0 is the draw row). -/
def txSaveWinners (failAt : Nat → Bool) : Nat → List WinnerRow → Bool
  | _, [] => true
  | n, _ :: rest => if failAt n then false else txSaveWinners failAt (n+1) rest

/-- Embedding of the transactional write of the current handlers
(src/unnamed/part_000 lines 127 to 151 and 217 to 244): create the draw
row then every winner row inside one transaction; any failure rolls the
whole set back, success commits draw and winners together. -/
def commitDraw (db : DBState) (newDraw : Draw) (rows : List WinnerRow)
    (failAt : Nat → Bool) : DrawOutcome × DBState :=
  if failAt 0 then (.serverError "Failed to save new draw", db)
  else if txSaveWinners failAt 1 rows then
    (.ok rows, ⟨db.draws ++ [newDraw], db.winners ++ rows, db.structures⟩)
  else (.serverError "Failed to save winner", db)

/-- Winner rows for the engine results, ids supplied by `winnerIds`
(src/unnamed/part_000 lines 139 to 150). -/
def winnerRows (tiers : List PrizeTier) (newDrawId : Nat) (winnerIds : Nat → Nat)
    (results : List Engine.WinnerResult) : List WinnerRow :=
  results.enum.map (fun p =>
    WinnerRow.mk (winnerIds p.1) newDrawId (tierIdFor tiers p.2.tierName)
      p.2.msisdn p.2.position p.2.isRunnerUp)

/-- Entry source selection (src/unnamed/part_000 lines 94 to 106): a
non-empty caller-supplied list wins, otherwise the PostHog fetch. -/
def chooseEntries (reqEntries phEntries : List EligibleEntry) : List EligibleEntry :=
  if !reqEntries.isEmpty then reqEntries else phEntries

/-- Source label stored on the draw (src/unnamed/part_000 lines 93 to 95). -/
def chooseSource (reqEntries : List EligibleEntry) : String :=
  if !reqEntries.isEmpty then "CSV" else "PostHog"

/-- Embedding of ExecuteDraw (src/unnamed/part_000 lines 60 to 154)
over the explicit store: the PostHog fetch result, fresh ids, and the
transaction-failure oracle are parameters. -/
def ExecuteDraw (db : DBState) (req : DrawRequest) (phEntries : List EligibleEntry)
    (rand : Nat → Nat) (newDrawId adminId : Nat) (winnerIds : Nat → Nat)
    (failAt : Nat → Bool) : DrawOutcome × DBState :=
  match db.draws.find? (fun d => d.drawDate == req.drawDate) with
  | some existing => (.conflict existing.id true, db)
  | none =>
    match db.structures.find? (fun s => s.id == req.prizeStructureId) with
    | none => (.badRequest "Selected prize structure not found", db)
    | some ps =>
      let entries := chooseEntries req.msisdnEntries phEntries
      if entries.isEmpty then (.badRequest "No eligible entries found for this draw", db)
      else
        match Engine.DrawWinners rand entries ps.tiers (pastWinsByTier db) with
        | .error _ => (.serverError "Draw failed", db)
        | .ok results =>
          let newDraw : Draw :=
            ⟨newDrawId, req.drawDate, ps.id, (entries.map (·.points)).sum, adminId,
              chooseSource req.msisdnEntries, false⟩
          commitDraw db newDraw (winnerRows ps.tiers newDrawId winnerIds results) failAt

/-- Embedding of RerunDraw (src/unnamed/part_000 lines 156 to 247): the
original draw supplies drawDate and prizeStructureId, the new draw is
created with isRerun true, the original row is not updated, and no
same-date guard is applied. -/
def RerunDraw (db : DBState) (origDrawId : Nat) (reqEntries : List EligibleEntry)
    (phEntries : List EligibleEntry) (rand : Nat → Nat) (newDrawId adminId : Nat)
    (winnerIds : Nat → Nat) (failAt : Nat → Bool) : DrawOutcome × DBState :=
  match db.draws.find? (fun d => d.id == origDrawId) with
  | none => (.notFound "Original draw not found", db)
  | some oldDraw =>
    match db.structures.find? (fun s => s.id == oldDraw.prizeStructureId) with
    | none => (.serverError "Prize structure for original draw not found", db)
    | some ps =>
      let entries := chooseEntries reqEntries phEntries
      if entries.isEmpty then
        (.badRequest "No eligible entries found for this draw's window", db)
      else
        match Engine.DrawWinners rand entries ps.tiers (pastWinsByTier db) with
        | .error _ => (.serverError "Rerun draw failed", db)
        | .ok results =>
          let newDraw : Draw :=
            ⟨newDrawId, oldDraw.drawDate, ps.id, (entries.map (·.points)).sum, adminId,
              chooseSource reqEntries, true⟩
          commitDraw db newDraw (winnerRows ps.tiers newDrawId winnerIds results) failAt

/-- A local wall-clock instant: absolute day number and seconds past
local midnight. -/
structure LocalTime where
  day : Int
  secs : Nat
deriving Repr, DecidableEq

/-- Go weekday of an absolute day number, with day 0 a Sunday: 0 =
Sunday, 1 = Monday, ..., 6 = Saturday. -/
def weekday (d : Int) : Int := d % 7

/-- Embedding of computePostHogWindow (src/unnamed/part_000 lines 257
to 270, agreeing with src/internal/handlers/draw.go lines 369 to 416):
the window always ends at 17:00:00 of the draw date; it starts at
17:00:01 three days earlier on Mondays, seven days earlier on
Saturdays, and one day earlier otherwise.  61200 seconds is 17:00:00. -/
def computePostHogWindow (drawDate : Int) : LocalTime × LocalTime :=
  let wd := weekday drawDate
  let windowEnd : LocalTime := ⟨drawDate, 61200⟩
  let windowStart : LocalTime :=
    if wd = 1 then ⟨drawDate - 3, 61201⟩
    else if wd = 6 then ⟨drawDate - 7, 61201⟩
    else ⟨drawDate - 1, 61201⟩
  (windowStart, windowEnd)

/-- Embedding of maskMSISDN (src/unnamed/part_000 lines 272 to 275). -/
def maskMSISDN (msisdn : String) : String :=
  if msisdn.length < 7 then msisdn
  else (msisdn.take 3) ++ "****" ++ (msisdn.drop (msisdn.length - 4))

end Promo.Handlers

namespace Promo

theorem insertLe_perm (le : α → α → Bool) (a : α) (l : List α) :
    (insertLe le a l).Perm (a :: l) := by
  induction l with
  | nil => simp [insertLe]
  | cons b bs ih =>
    simp only [insertLe]
    by_cases h : le a b
    · simp [h]
    · simp only [h, if_neg, Bool.false_eq_true, not_false_iff, ite_false]
      exact ((ih.cons b).trans (List.Perm.swap a b bs))

theorem sortLe_perm (le : α → α → Bool) (l : List α) :
    (sortLe le l).Perm l := by
  induction l with
  | nil => simp [sortLe]
  | cons a as ih =>
    exact (insertLe_perm le a (sortLe le as)).trans (ih.cons a)

theorem mem_sortLe {le : α → α → Bool} {l : List α} {a : α} :
    a ∈ sortLe le l ↔ a ∈ l :=
  (sortLe_perm le l).mem_iff

theorem poolOf_nodup (entries : List EligibleEntry) :
    ((poolOf entries).map (·.1)).Nodup := by
  unfold poolOf
  rw [List.map_map]
  have h1 : ((entries.map (·.msisdn)).dedup).Nodup := List.nodup_dedup _
  have h2 : (sortLe strLeB (entries.map (·.msisdn)).dedup).Nodup :=
    (sortLe_perm strLeB _).symm.nodup h1
  have : ((fun p => p.1) ∘ fun m => (m, msisdnPoints entries m)) = id := by
    funext m; rfl
  rw [this, List.map_id]
  exact h2

theorem removeAll_not_mem (pool : List (String × Nat)) (m : String) :
    ∀ p ∈ removeAll pool m, p.1 ≠ m := by
  intro p hp
  have := List.of_mem_filter hp
  simpa using this

theorem removeAll_sublist (pool : List (String × Nat)) (m : String) :
    (removeAll pool m).Sublist pool :=
  List.filter_sublist pool

theorem removeAll_eq_self {pool : List (String × Nat)} {m : String}
    (h : m ∉ pool.map (·.1)) : removeAll pool m = pool := by
  induction pool with
  | nil => rfl
  | cons p ps ih =>
    simp only [List.map_cons, List.mem_cons, not_or] at h
    simp only [removeAll, List.filter_cons]
    have hne : (p.1 != m) = true := by
      simp only [bne_iff_ne, ne_eq, decide_eq_true_eq]
      exact fun e => h.1 e.symm
    rw [if_pos hne]
    have := ih h.2
    simp only [removeAll] at this
    rw [this]

theorem removeAll_length {pool : List (String × Nat)} {m : String}
    (hnd : (pool.map (·.1)).Nodup) (hm : m ∈ pool.map (·.1)) :
    (removeAll pool m).length = pool.length - 1 := by
  induction pool with
  | nil => simp at hm
  | cons p ps ih =>
    simp only [List.map_cons, List.nodup_cons] at hnd
    simp only [List.map_cons, List.mem_cons] at hm
    by_cases hp : p.1 = m
    · have hnotin : m ∉ ps.map (·.1) := hp ▸ hnd.1
      simp only [removeAll, List.filter_cons]
      have hne : (p.1 != m) = false := by simp [hp]
      rw [if_neg (by simp [hne])]
      have := removeAll_eq_self hnotin
      simp only [removeAll] at this
      simp [this]
    · have hm' : m ∈ ps.map (·.1) := by
        rcases hm with h | h
        · exact absurd h.symm hp
        · exact h
      simp only [removeAll, List.filter_cons]
      have hne : (p.1 != m) = true := by
        simp only [bne_iff_ne, ne_eq, decide_eq_true_eq]; exact hp
      rw [if_pos hne]
      have := ih hnd.2 hm'
      simp only [removeAll] at this
      simp only [List.length_cons, this]
      have hpos : 1 ≤ ps.length := by
        rcases List.mem_map.mp hm' with ⟨q, hq, _⟩
        exact List.length_pos.mpr (by intro e; subst e; simp at hq)
      omega

theorem weightSum_cons (p : String × Nat) (ps : List (String × Nat)) :
    weightSum (p :: ps) = p.2 + weightSum ps := by
  simp [weightSum]

theorem weightSum_eq_zero_iff_of_pos {pool : List (String × Nat)}
    (h : ∀ p ∈ pool, 1 ≤ p.2) : weightSum pool = 0 ↔ pool = [] := by
  cases pool with
  | nil => simp [weightSum]
  | cons p ps =>
    simp only [weightSum_cons]
    have := h p (by simp)
    constructor
    · intro he; omega
    · intro he; cases he

theorem buildCum_map_msisdn (a : Nat) (l : List (String × Nat)) :
    (buildCum a l).map (·.msisdn) = l.map (·.1) := by
  induction l generalizing a with
  | nil => rfl
  | cons p ps ih => simp [buildCum, ih]

end Promo

namespace Promo.Engine

theorem find?_buildCum {l : List (String × Nat)} :
    ∀ {a r : Nat}, a ≤ r → r < a + weightSum l →
      ∃ e, (buildCum a l).find? (fun e => decide (r < e.cumsum)) = some e := by
  induction l with
  | nil =>
    intro a r ha hr
    simp [weightSum] at hr
    omega
  | cons p ps ih =>
    intro a r ha hr
    by_cases h : r < a + p.2
    · exact ⟨⟨p.1, p.2, a + p.2⟩, by simp [buildCum, List.find?_cons, h]⟩
    · push_neg at h
      rw [weightSum_cons] at hr
      obtain ⟨e, he⟩ := ih h (by omega)
      refine ⟨e, ?_⟩
      simp only [buildCum, List.find?_cons]
      have hd : decide (r < a + p.2) = false := by
        simp only [decide_eq_false_iff_not, not_lt]; omega
      rw [hd]
      exact he

theorem pickOneMSISDN_ok {pool : List (String × Nat)} (u : Nat)
    (h : weightSum pool ≠ 0) :
    ∃ m, pickOneMSISDN (buildCum 0 pool) (weightSum pool) u = .ok m ∧
      m ∈ pool.map (·.1) := by
  have hr : (u % 4294967296) % weightSum pool < weightSum pool :=
    Nat.mod_lt _ (Nat.pos_of_ne_zero h)
  obtain ⟨e, he⟩ := @find?_buildCum pool 0
    ((u % 4294967296) % weightSum pool) (Nat.zero_le _) (by omega)
  refine ⟨e.msisdn, ?_, ?_⟩
  · simp only [pickOneMSISDN, if_neg h]
    rw [he]
  · have := List.mem_of_find?_eq_some he
    rw [← buildCum_map_msisdn 0 pool]
    exact List.mem_map.mpr ⟨e, this, rfl⟩

theorem pickOneMSISDN_ok_mem {pool : List (String × Nat)}
    {v : Nat} {s : String} :
    pickOneMSISDN (buildCum 0 pool) (weightSum pool) v = .ok s →
      s ∈ pool.map (·.1) := by
  intro h
  by_cases hz : weightSum pool = 0
  · simp [pickOneMSISDN, hz] at h
  · simp only [pickOneMSISDN, if_neg hz] at h
    cases hfind : (buildCum 0 pool).find?
        (fun e => decide ((v % 4294967296) % weightSum pool < e.cumsum)) with
    | none => rw [hfind] at h; cases h
    | some e =>
      rw [hfind] at h
      cases h
      have := List.mem_of_find?_eq_some hfind
      rw [← buildCum_map_msisdn 0 pool]
      exact List.mem_map.mpr ⟨e, this, rfl⟩

theorem drawSlot_ok {rand : Nat → Nat} {pw : String → Nat → Bool} {tid : Nat}
    {pool : List (String × Nat)} {sel : List String} :
    ∀ {fuel k m k'}, drawSlot rand pw tid pool sel fuel k = .ok m k' →
      m ∈ pool.map (·.1) ∧ accept sel pw tid m = true := by
  intro fuel
  induction fuel with
  | zero => intro k m k' h; simp [drawSlot] at h
  | succ n ih =>
    intro k m k' h
    simp only [drawSlot] at h
    cases hpick : pickOneMSISDN (buildCum 0 pool) (weightSum pool) (rand k) with
    | error e => rw [hpick] at h; cases h
    | ok m0 =>
      rw [hpick] at h
      dsimp only at h
      by_cases hacc : accept sel pw tid m0 = true
      · rw [if_pos hacc] at h
        injection h with h1 h2
        subst h1
        exact ⟨pickOneMSISDN_ok_mem hpick, hacc⟩
      · rw [if_neg hacc] at h
        exact ih h

theorem drawSlot_not_err {rand : Nat → Nat} {pw : String → Nat → Bool} {tid : Nat}
    {pool : List (String × Nat)} {sel : List String}
    (hw : weightSum pool ≠ 0) :
    ∀ {fuel k e k'}, drawSlot rand pw tid pool sel fuel k ≠ .err e k' := by
  intro fuel
  induction fuel with
  | zero => intro k e k' h; simp [drawSlot] at h
  | succ n ih =>
    intro k e k' h
    simp only [drawSlot] at h
    obtain ⟨m, hpick, _⟩ := pickOneMSISDN_ok (rand k) hw
    rw [hpick] at h
    dsimp only at h
    by_cases hacc : accept sel pw tid m = true
    · rw [if_pos hacc] at h; cases h
    · rw [if_neg hacc] at h
      exact ih h

theorem drawSlot_first_accept {rand : Nat → Nat} {pw : String → Nat → Bool}
    {tid : Nat} {pool : List (String × Nat)} {sel : List String} {k : Nat} {m : String}
    (hpick : pickOneMSISDN (buildCum 0 pool) (weightSum pool) (rand k) = .ok m)
    (hacc : accept sel pw tid m = true) (fuel : Nat) :
    drawSlot rand pw tid pool sel (fuel+1) k = .ok m (k+1) := by
  simp only [drawSlot]
  rw [hpick]
  dsimp only
  rw [if_pos hacc]

theorem drawSlot_exhausted_of_reject {rand : Nat → Nat} {pw : String → Nat → Bool}
    {tid : Nat} {pool : List (String × Nat)} {sel : List String}
    (h : ∀ u, ∃ m, pickOneMSISDN (buildCum 0 pool) (weightSum pool) u = .ok m ∧
        accept sel pw tid m = false) :
    ∀ fuel k, drawSlot rand pw tid pool sel fuel k = .exhausted (k + fuel) := by
  intro fuel
  induction fuel with
  | zero => intro k; simp [drawSlot]
  | succ n ih =>
    intro k
    obtain ⟨m, hpick, hacc⟩ := h (rand k)
    simp only [drawSlot]
    rw [hpick]
    dsimp only
    rw [if_neg (by simp [hacc])]
    rw [ih (k+1)]
    congr 1
    omega

theorem drawSlot_congr {rand : Nat → Nat} {tid : Nat}
    {pool : List (String × Nat)} {sel : List String}
    {p1 p2 : String → Nat → Bool} (h : ∀ m, p1 m tid = p2 m tid) :
    ∀ fuel k, drawSlot rand p1 tid pool sel fuel k =
      drawSlot rand p2 tid pool sel fuel k := by
  intro fuel
  induction fuel with
  | zero => intro k; rfl
  | succ n ih =>
    intro k
    simp only [drawSlot]
    cases pickOneMSISDN (buildCum 0 pool) (weightSum pool) (rand k) with
    | error e => rfl
    | ok m =>
      dsimp only
      have hacc : accept sel p1 tid m = accept sel p2 tid m := by
        simp [accept, h m]
      rw [hacc, ih]

theorem drawSlot_slotK_le {rand : Nat → Nat} {pw : String → Nat → Bool} {tid : Nat}
    {pool : List (String × Nat)} {sel : List String} :
    ∀ fuel k, slotK (drawSlot rand pw tid pool sel fuel k) ≤ k + fuel := by
  intro fuel
  induction fuel with
  | zero => intro k; simp [drawSlot, slotK]
  | succ n ih =>
    intro k
    simp only [drawSlot]
    cases pickOneMSISDN (buildCum 0 pool) (weightSum pool) (rand k) with
    | error e => simp [slotK]
    | ok m =>
      dsimp only
      by_cases hacc : accept sel pw tid m = true
      · rw [if_pos hacc]; simp [slotK]
      · rw [if_neg hacc]
        have := ih (k+1)
        omega

theorem accept_true_iff {sel : List String} {pw : String → Nat → Bool}
    {tid : Nat} {m : String} :
    accept sel pw tid m = true ↔ (m ∉ sel ∧ pw m tid = false) := by
  simp [accept]

theorem drawSlots_spec {rand : Nat → Nat} {pw : String → Nat → Bool} {tid : Nat} :
    ∀ {n : Nat} {st : EngineState} {ms : List String} {st' : EngineState} {ab : Bool},
      drawSlots rand pw tid n st = .ok (ms, st', ab) →
      st'.selected = st.selected ++ ms ∧
      (∀ m ∈ ms, pw m tid = false) ∧
      (st.selected.Nodup → st'.selected.Nodup) := by
  intro n
  induction n with
  | zero =>
    intro st ms st' ab h
    simp only [drawSlots] at h
    injection h with h
    injection h with h1 h2
    injection h2 with h2 h3
    subst h1; subst h2
    exact ⟨by simp, by simp, fun hn => by simpa using hn⟩
  | succ n ih =>
    intro st ms st' ab h
    simp only [drawSlots] at h
    by_cases hz : weightSum st.pool = 0
    · rw [if_pos hz] at h
      injection h with h
      injection h with h1 h2
      injection h2 with h2 h3
      subst h1; subst h2
      exact ⟨by simp, by simp, fun hn => by simpa using hn⟩
    · rw [if_neg hz] at h
      cases hs : drawSlot rand pw tid st.pool st.selected attemptCap st.k with
      | err e k' => rw [hs] at h; cases h
      | exhausted k =>
        rw [hs] at h
        dsimp only at h
        injection h with h
        injection h with h1 h2
        injection h2 with h2 h3
        subst h1; subst h2
        exact ⟨by simp, by simp, fun hn => by simpa using hn⟩
      | ok m k =>
        rw [hs] at h
        dsimp only at h
        cases hrec : drawSlots rand pw tid n
            ⟨removeAll st.pool m, st.selected ++ [m], k⟩ with
        | error e => rw [hrec] at h; cases h
        | ok out =>
          obtain ⟨ms0, st0, ab0⟩ := out
          rw [hrec] at h
          dsimp only at h
          injection h with h
          injection h with h1 h2
          injection h2 with h2 h3
          subst h1; subst h2
          obtain ⟨hmem, hacc⟩ := drawSlot_ok hs
          obtain ⟨hnotsel, hpw⟩ := accept_true_iff.mp hacc
          obtain ⟨hsel0, hpw0, hnd0⟩ := ih hrec
          refine ⟨?_, ?_, ?_⟩
          · rw [hsel0]
            simp
          · intro x hx
            rcases List.mem_cons.mp hx with rfl | hx
            · exact hpw
            · exact hpw0 x hx
          · intro hnd
            apply hnd0
            simp only [List.nodup_append]
            refine ⟨hnd, by simp, ?_⟩
            intro a ha
            simp only [List.mem_singleton]
            intro e
            subst e
            exact hnotsel ha

theorem drawSlots_isOk {rand : Nat → Nat} {pw : String → Nat → Bool} {tid : Nat} :
    ∀ {n : Nat} {st : EngineState},
      ∃ out, drawSlots rand pw tid n st = .ok out := by
  intro n
  induction n with
  | zero => intro st; exact ⟨([], st, false), rfl⟩
  | succ n ih =>
    intro st
    by_cases hz : weightSum st.pool = 0
    · exact ⟨([], st, false), by simp only [drawSlots]; rw [if_pos hz]⟩
    · cases hs : drawSlot rand pw tid st.pool st.selected attemptCap st.k with
      | err e k' => exact absurd hs (drawSlot_not_err hz)
      | exhausted k =>
        refine ⟨([], ⟨st.pool, st.selected, k⟩, true), ?_⟩
        simp only [drawSlots]
        rw [if_neg hz, hs]
      | ok m k =>
        obtain ⟨⟨ms0, st0, ab0⟩, hrec⟩ :=
          @ih ⟨removeAll st.pool m, st.selected ++ [m], k⟩
        refine ⟨(m :: ms0, st0, ab0), ?_⟩
        simp only [drawSlots]
        rw [if_neg hz, hs]
        dsimp only
        rw [hrec]

theorem drawSlots_congr {rand : Nat → Nat} {tid : Nat}
    {p1 p2 : String → Nat → Bool} (h : ∀ m, p1 m tid = p2 m tid) :
    ∀ {n : Nat} {st : EngineState},
      drawSlots rand p1 tid n st = drawSlots rand p2 tid n st := by
  intro n
  induction n with
  | zero => intro st; rfl
  | succ n ih =>
    intro st
    simp only [drawSlots]
    by_cases hz : weightSum st.pool = 0
    · rw [if_pos hz, if_pos hz]
    · rw [if_neg hz, if_neg hz, drawSlot_congr h]
      cases drawSlot rand p2 tid st.pool st.selected attemptCap st.k with
      | err e k' => rfl
      | exhausted k => rfl
      | ok m k =>
        dsimp only
        rw [ih]

theorem drawSlots_exhausted_step {rand : Nat → Nat} {pw : String → Nat → Bool}
    {tid n : Nat} {st : EngineState} {k : Nat}
    (hz : weightSum st.pool ≠ 0)
    (hex : drawSlot rand pw tid st.pool st.selected attemptCap st.k = .exhausted k) :
    drawSlots rand pw tid (n+1) st = .ok ([], ⟨st.pool, st.selected, k⟩, true) := by
  simp only [drawSlots]
  rw [if_neg hz, hex]

theorem drawSlots_err_step {rand : Nat → Nat} {pw : String → Nat → Bool}
    {tid n : Nat} {st : EngineState} {e : RngError} {k' : Nat}
    (hz : weightSum st.pool ≠ 0)
    (he : drawSlot rand pw tid st.pool st.selected attemptCap st.k = .err e k') :
    drawSlots rand pw tid (n+1) st = .error e := by
  simp only [drawSlots]
  rw [if_neg hz, he]

theorem drawSlots_full {rand : Nat → Nat} {pw : String → Nat → Bool} {tid : Nat} :
    ∀ {n : Nat} {st : EngineState},
      (∀ p ∈ st.pool, 1 ≤ p.2) →
      ((st.pool.map (·.1)).Nodup) →
      (∀ p ∈ st.pool, p.1 ∉ st.selected) →
      (∀ p ∈ st.pool, pw p.1 tid = false) →
      ∃ ms st', drawSlots rand pw tid n st = .ok (ms, st', false) ∧
        ms.length = min n st.pool.length ∧
        st'.pool.length = st.pool.length - n ∧
        (∀ p ∈ st'.pool, 1 ≤ p.2) ∧
        ((st'.pool.map (·.1)).Nodup) ∧
        (∀ p ∈ st'.pool, p.1 ∉ st'.selected) ∧
        (∀ p ∈ st'.pool, pw p.1 tid = false) := by
  intro n
  induction n with
  | zero =>
    intro st h1 h2 h3 h4
    exact ⟨[], st, rfl, by simp, by simp, h1, h2, h3, h4⟩
  | succ n ih =>
    intro st h1 h2 h3 h4
    by_cases hnil : st.pool = []
    · refine ⟨[], st, ?_, by simp [hnil], by simp [hnil], h1, h2, h3, h4⟩
      simp only [drawSlots]
      rw [if_pos (by simp [hnil, weightSum])]
    · have hz : weightSum st.pool ≠ 0 := by
        intro h0
        exact hnil ((weightSum_eq_zero_iff_of_pos h1).mp h0)
      obtain ⟨m, hpick, hmem⟩ := pickOneMSISDN_ok (rand st.k) hz
      obtain ⟨p, hpmem, hpm⟩ := List.mem_map.mp hmem
      have hacc : accept st.selected pw tid m = true :=
        accept_true_iff.mpr ⟨hpm ▸ h3 p hpmem, hpm ▸ h4 p hpmem⟩
      have hcap : attemptCap = 19999 + 1 := rfl
      have hslot : drawSlot rand pw tid st.pool st.selected attemptCap st.k =
          .ok m (st.k + 1) := by
        rw [hcap]
        exact drawSlot_first_accept hpick hacc 19999
      set st1 : EngineState := ⟨removeAll st.pool m, st.selected ++ [m], st.k + 1⟩ with hst1
      have h1' : ∀ q ∈ st1.pool, 1 ≤ q.2 := by
        intro q hq
        exact h1 q ((removeAll_sublist st.pool m).mem hq)
      have h2' : (st1.pool.map (·.1)).Nodup :=
        h2.sublist ((removeAll_sublist st.pool m).map (·.1))
      have h3' : ∀ q ∈ st1.pool, q.1 ∉ st1.selected := by
        intro q hq
        simp only [hst1, List.mem_append, List.mem_singleton]
        push_neg
        refine ⟨h3 q ((removeAll_sublist st.pool m).mem hq), ?_⟩
        exact removeAll_not_mem st.pool m q hq
      have h4' : ∀ q ∈ st1.pool, pw q.1 tid = false := by
        intro q hq
        exact h4 q ((removeAll_sublist st.pool m).mem hq)
      obtain ⟨ms0, st', hrec, hlen0, hplen0, g1, g2, g3, g4⟩ := ih h1' h2' h3' h4'
      refine ⟨m :: ms0, st', ?_, ?_, ?_, g1, g2, g3, g4⟩
      · simp only [drawSlots]
        rw [if_neg hz, hslot]
        dsimp only
        rw [hrec]
      · have hrm : st1.pool.length = st.pool.length - 1 := removeAll_length h2 hmem
        have hlp : 1 ≤ st.pool.length := List.length_pos.mpr hnil
        have hsucc : st.pool.length = (st.pool.length - 1) + 1 := by omega
        rw [List.length_cons, hlen0, hrm, hsucc, Nat.succ_min_succ]
        simp
      · have hrm : st1.pool.length = st.pool.length - 1 := removeAll_length h2 hmem
        rw [hplen0, hrm]
        omega

theorem positionsFrom_map_msisdn (t : PrizeTier) (ru : Bool) :
    ∀ (pos : Nat) (ms : List String),
      (positionsFrom t ru pos ms).map (·.msisdn) = ms := by
  intro pos ms
  induction ms generalizing pos with
  | nil => rfl
  | cons m rest ih => simp [positionsFrom, ih]

theorem positionsFrom_map_position (t : PrizeTier) (ru : Bool) :
    ∀ (pos : Nat) (ms : List String),
      (positionsFrom t ru pos ms).map (·.position) = List.range' pos ms.length := by
  intro pos ms
  induction ms generalizing pos with
  | nil => rfl
  | cons m rest ih => simp [positionsFrom, List.range', ih]

theorem positionsFrom_length (t : PrizeTier) (ru : Bool) :
    ∀ (pos : Nat) (ms : List String),
      (positionsFrom t ru pos ms).length = ms.length := by
  intro pos ms
  induction ms generalizing pos with
  | nil => rfl
  | cons m rest ih => simp [positionsFrom, ih]

theorem positionsFrom_fields (t : PrizeTier) (ru : Bool) :
    ∀ (pos : Nat) (ms : List String) (w : WinnerResult),
      w ∈ positionsFrom t ru pos ms →
      w.isRunnerUp = ru ∧ w.tierId = t.id ∧ w.tierName = t.tierName := by
  intro pos ms
  induction ms generalizing pos with
  | nil => intro w hw; cases hw
  | cons m rest ih =>
    intro w hw
    rcases List.mem_cons.mp hw with rfl | hw
    · exact ⟨rfl, rfl, rfl⟩
    · exact ih (pos+1) w hw

theorem drawTier_spec {rand : Nat → Nat} {pw : String → Nat → Bool}
    {t : PrizeTier} {st : EngineState} {ws : List WinnerResult} {st' : EngineState}
    (h : drawTier rand pw t st = .ok (ws, st')) :
    st'.selected = st.selected ++ ws.map (·.msisdn) ∧
    (∀ w ∈ ws, pw w.msisdn w.tierId = false ∧ w.tierId = t.id ∧
      w.tierName = t.tierName) ∧
    (st.selected.Nodup → st'.selected.Nodup) := by
  simp only [drawTier] at h
  cases hs1 : drawSlots rand pw t.id t.quantity st with
  | error e => rw [hs1] at h; cases h
  | ok out1 =>
    obtain ⟨mains, st1, ab⟩ := out1
    rw [hs1] at h
    dsimp only at h
    obtain ⟨hsel1, hpw1, hnd1⟩ := drawSlots_spec hs1
    cases ab with
    | true =>
      rw [if_pos rfl] at h
      injection h with h
      injection h with h1 h2
      subst h1; subst h2
      refine ⟨?_, ?_, hnd1⟩
      · rw [hsel1, positionsFrom_map_msisdn]
      · intro w hw
        obtain ⟨hru, hid, hname⟩ := positionsFrom_fields t false 1 mains w hw
        have hmem : w.msisdn ∈ mains := by
          rw [← positionsFrom_map_msisdn t false 1 mains]
          exact List.mem_map.mpr ⟨w, hw, rfl⟩
        exact ⟨hid ▸ hpw1 w.msisdn hmem, hid, hname⟩
    | false =>
      rw [if_neg (by simp)] at h
      cases hs2 : drawSlots rand pw t.id (mains.length * t.runnerUpCount) st1 with
      | error e => rw [hs2] at h; cases h
      | ok out2 =>
        obtain ⟨runners, st2, ab2⟩ := out2
        rw [hs2] at h
        dsimp only at h
        injection h with h
        injection h with h1 h2
        subst h1; subst h2
        obtain ⟨hsel2, hpw2, hnd2⟩ := drawSlots_spec hs2
        refine ⟨?_, ?_, ?_⟩
        · rw [hsel2, hsel1, List.map_append, positionsFrom_map_msisdn,
            positionsFrom_map_msisdn, List.append_assoc]
        · intro w hw
          rcases List.mem_append.mp hw with hw | hw
          · obtain ⟨hru, hid, hname⟩ := positionsFrom_fields t false 1 mains w hw
            have hmem : w.msisdn ∈ mains := by
              rw [← positionsFrom_map_msisdn t false 1 mains]
              exact List.mem_map.mpr ⟨w, hw, rfl⟩
            exact ⟨hid ▸ hpw1 w.msisdn hmem, hid, hname⟩
          · obtain ⟨hru, hid, hname⟩ := positionsFrom_fields t true 1 runners w hw
            have hmem : w.msisdn ∈ runners := by
              rw [← positionsFrom_map_msisdn t true 1 runners]
              exact List.mem_map.mpr ⟨w, hw, rfl⟩
            exact ⟨hid ▸ hpw2 w.msisdn hmem, hid, hname⟩
        · intro hnd
          exact hnd2 (hnd1 hnd)

theorem drawTier_isOk {rand : Nat → Nat} {pw : String → Nat → Bool}
    {t : PrizeTier} {st : EngineState} :
    ∃ out, drawTier rand pw t st = .ok out := by
  obtain ⟨⟨mains, st1, ab⟩, hs1⟩ :=
    @drawSlots_isOk rand pw t.id t.quantity st
  cases ab with
  | true =>
    exact ⟨(positionsFrom t false 1 mains, st1), by simp [drawTier, hs1]⟩
  | false =>
    obtain ⟨⟨runners, st2, ab2⟩, hs2⟩ :=
      @drawSlots_isOk rand pw t.id (mains.length * t.runnerUpCount) st1
    refine ⟨(positionsFrom t false 1 mains ++ positionsFrom t true 1 runners, st2), ?_⟩
    simp only [drawTier]
    rw [hs1]
    dsimp only
    simp only [Bool.false_eq_true, if_false]
    rw [hs2]

theorem drawTier_congr {rand : Nat → Nat} {t : PrizeTier} {st : EngineState}
    {p1 p2 : String → Nat → Bool} (h : ∀ m, p1 m t.id = p2 m t.id) :
    drawTier rand p1 t st = drawTier rand p2 t st := by
  unfold drawTier
  rw [drawSlots_congr h]
  cases drawSlots rand p2 t.id t.quantity st with
  | error e => rfl
  | ok out1 =>
    obtain ⟨mains, st1, ab⟩ := out1
    cases ab with
    | true => dsimp only; simp
    | false =>
      dsimp only
      simp only [Bool.false_eq_true, if_false]
      rw [drawSlots_congr h]

theorem drawTiers_spec {rand : Nat → Nat} {pw : String → Nat → Bool} :
    ∀ {ts : List PrizeTier} {st : EngineState} {ws : List WinnerResult},
      drawTiers rand pw ts st = .ok ws →
      ∃ stf : EngineState,
        stf.selected = st.selected ++ ws.map (·.msisdn) ∧
        (st.selected.Nodup → stf.selected.Nodup) ∧
        (∀ w ∈ ws, pw w.msisdn w.tierId = false ∧
          ∃ t ∈ ts, w.tierId = t.id ∧ w.tierName = t.tierName) := by
  intro ts
  induction ts with
  | nil =>
    intro st ws h
    simp only [drawTiers] at h
    injection h with h
    subst h
    exact ⟨st, by simp, fun hn => hn, by simp⟩
  | cons t rest ih =>
    intro st ws h
    simp only [drawTiers] at h
    cases h1 : drawTier rand pw t st with
    | error e => rw [h1] at h; cases h
    | ok out1 =>
      obtain ⟨ws1, st1⟩ := out1
      rw [h1] at h
      dsimp only at h
      cases h2 : drawTiers rand pw rest st1 with
      | error e => rw [h2] at h; cases h
      | ok wsr =>
        rw [h2] at h
        dsimp only at h
        injection h with h
        subst h
        obtain ⟨hsel1, hfields1, hnd1⟩ := drawTier_spec h1
        obtain ⟨stf, hself, hndf, hfieldsf⟩ := ih h2
        refine ⟨stf, ?_, ?_, ?_⟩
        · rw [hself, hsel1, List.map_append, List.append_assoc]
        · intro hn
          exact hndf (hnd1 hn)
        · intro w hw
          rcases List.mem_append.mp hw with hw | hw
          · obtain ⟨hpw, hid, hname⟩ := hfields1 w hw
            exact ⟨hpw, t, by simp, hid, hname⟩
          · obtain ⟨hpw, t0, ht0, hrest⟩ := hfieldsf w hw
            exact ⟨hpw, t0, List.mem_cons_of_mem _ ht0, hrest⟩

theorem drawTiers_isOk {rand : Nat → Nat} {pw : String → Nat → Bool} :
    ∀ {ts : List PrizeTier} {st : EngineState},
      ∃ ws, drawTiers rand pw ts st = .ok ws := by
  intro ts
  induction ts with
  | nil => intro st; exact ⟨[], rfl⟩
  | cons t rest ih =>
    intro st
    obtain ⟨⟨ws1, st1⟩, h1⟩ := @drawTier_isOk rand pw t st
    obtain ⟨wsr, h2⟩ := @ih st1
    refine ⟨ws1 ++ wsr, ?_⟩
    simp only [drawTiers]
    rw [h1]
    dsimp only
    rw [h2]

theorem drawTiers_congr {rand : Nat → Nat} {p1 p2 : String → Nat → Bool} :
    ∀ {ts : List PrizeTier} {st : EngineState},
      (∀ m, ∀ t ∈ ts, p1 m t.id = p2 m t.id) →
      drawTiers rand p1 ts st = drawTiers rand p2 ts st := by
  intro ts
  induction ts with
  | nil => intro st h; rfl
  | cons t rest ih =>
    intro st h
    simp only [drawTiers]
    rw [drawTier_congr (fun m => h m t (by simp))]
    cases drawTier rand p2 t st with
    | error e => rfl
    | ok out1 =>
      obtain ⟨ws1, st1⟩ := out1
      dsimp only
      rw [ih (fun m t0 ht0 => h m t0 (List.mem_cons_of_mem _ ht0))]

theorem positionsFrom_filter_not_ru (t : PrizeTier) :
    ∀ (pos : Nat) (ms : List String),
      (positionsFrom t false pos ms).filter (fun w => !w.isRunnerUp) =
        positionsFrom t false pos ms ∧
      (positionsFrom t false pos ms).filter (·.isRunnerUp) = [] := by
  intro pos ms
  induction ms generalizing pos with
  | nil => simp [positionsFrom]
  | cons m rest ih =>
    simp only [positionsFrom, List.filter_cons]
    constructor
    · simp [(ih (pos+1)).1]
    · simp [(ih (pos+1)).2]

theorem positionsFrom_filter_ru (t : PrizeTier) :
    ∀ (pos : Nat) (ms : List String),
      (positionsFrom t true pos ms).filter (·.isRunnerUp) =
        positionsFrom t true pos ms ∧
      (positionsFrom t true pos ms).filter (fun w => !w.isRunnerUp) = [] := by
  intro pos ms
  induction ms generalizing pos with
  | nil => simp [positionsFrom]
  | cons m rest ih =>
    simp only [positionsFrom, List.filter_cons]
    constructor
    · simp [(ih (pos+1)).1]
    · simp [(ih (pos+1)).2]

theorem drawTier_aborted {rand : Nat → Nat} {pw : String → Nat → Bool}
    {t : PrizeTier} {st : EngineState} {ms : List String} {st1 : EngineState}
    (h : drawSlots rand pw t.id t.quantity st = .ok (ms, st1, true)) :
    drawTier rand pw t st = .ok (positionsFrom t false 1 ms, st1) := by
  simp only [drawTier]
  rw [h]
  dsimp only
  simp

theorem drawTier_shape {rand : Nat → Nat} {pw : String → Nat → Bool}
    {t : PrizeTier} {st : EngineState} {ws : List WinnerResult} {st' : EngineState}
    (h : drawTier rand pw t st = .ok (ws, st')) :
    ∃ mains runners, ws = positionsFrom t false 1 mains ++ positionsFrom t true 1 runners := by
  simp only [drawTier] at h
  cases hs1 : drawSlots rand pw t.id t.quantity st with
  | error e => rw [hs1] at h; cases h
  | ok out1 =>
    obtain ⟨mains, st1, ab⟩ := out1
    rw [hs1] at h
    dsimp only at h
    cases ab with
    | true =>
      rw [if_pos rfl] at h
      injection h with h
      injection h with h1 h2
      exact ⟨mains, [], by rw [← h1]; simp [positionsFrom]⟩
    | false =>
      rw [if_neg (by simp)] at h
      cases hs2 : drawSlots rand pw t.id (mains.length * t.runnerUpCount) st1 with
      | error e => rw [hs2] at h; cases h
      | ok out2 =>
        obtain ⟨runners, st2, ab2⟩ := out2
        rw [hs2] at h
        dsimp only at h
        injection h with h
        injection h with h1 h2
        exact ⟨mains, runners, h1.symm⟩

end Promo.Engine

namespace Promo

/-- C1: for every draw execution (any entries list, any tier list, any
past-winners map), the winner list returned by the draw engine contains
pairwise-distinct MSISDNs across all tiers, mains and runner-ups
together; and each accepted selection is removed entirely from the pool
(every pool entry holding that MSISDN) before the next pick, the
removal step being `removeAll`, whose output never retains the accepted
MSISDN. -/
theorem C1_winners_distinct :
    (∀ (rand : Nat → Nat) (entries : List EligibleEntry) (tiers : List PrizeTier)
      (pastWins : String → Nat → Bool) (ws : List Engine.WinnerResult),
      Engine.DrawWinners rand entries tiers pastWins = .ok ws →
      (ws.map (·.msisdn)).Nodup) ∧
    (∀ (pool : List (String × Nat)) (m : String),
      ∀ p ∈ removeAll pool m, p.1 ≠ m) := by
  constructor
  · intro rand entries tiers pastWins ws h
    obtain ⟨stf, hsel, hnd, _⟩ := Engine.drawTiers_spec h
    have := hnd (by simp)
    rw [hsel] at this
    simpa using this
  · exact removeAll_not_mem

/-- C1 witness: a concrete two-tier draw whose returned winner msisdns
are pairwise distinct. -/
theorem C1_winners_distinct_witness :
    ((([⟨"J", 7, "C", 1, false⟩, ⟨"J", 7, "A", 1, true⟩] :
        List Engine.WinnerResult)).map (·.msisdn)).Nodup :=
  C1_winners_distinct.1 (fun i => if i = 0 then 3 else 0)
    [⟨"A", 1⟩, ⟨"B", 1⟩, ⟨"C", 2⟩] [⟨7, "J", 100, 1, 1, 1⟩] (fun _ _ => false)
    _ (by decide)

/-- C2: a candidate is accepted exactly when it is not already selected
in this draw and not recorded as a past winner of the same tier id; the
whole draw result is unchanged by altering past-wins entries of tiers
not being drawn (so a past win in another tier never disqualifies); and
no returned winner is recorded in the past-wins map for its own tier id
at draw time. -/
theorem C2_acceptance_rule :
    (∀ (sel : List String) (pw : String → Nat → Bool) (tid : Nat) (m : String),
      Engine.accept sel pw tid m = true ↔ (m ∉ sel ∧ pw m tid = false)) ∧
    (∀ (rand : Nat → Nat) (entries : List EligibleEntry) (tiers : List PrizeTier)
      (p1 p2 : String → Nat → Bool),
      (∀ m, ∀ t ∈ tiers, p1 m t.id = p2 m t.id) →
      Engine.DrawWinners rand entries tiers p1 =
        Engine.DrawWinners rand entries tiers p2) ∧
    (∀ (rand : Nat → Nat) (entries : List EligibleEntry) (tiers : List PrizeTier)
      (pw : String → Nat → Bool) (ws : List Engine.WinnerResult),
      Engine.DrawWinners rand entries tiers pw = .ok ws →
      ∀ w ∈ ws, pw w.msisdn w.tierId = false) := by
  refine ⟨fun sel pw tid m => Engine.accept_true_iff, ?_, ?_⟩
  · intro rand entries tiers p1 p2 h
    unfold Engine.DrawWinners
    exact Engine.drawTiers_congr
      (fun m t ht => h m t (mem_sortLe.mp ht))
  · intro rand entries tiers pw ws h
    obtain ⟨stf, _, _, hfields⟩ := Engine.drawTiers_spec h
    exact fun w hw => (hfields w hw).1

/-- C2 witness: a concrete draw against a past-wins map that records a
win in a different tier; the candidate is still drawn and the returned
winner is not a past winner of its own tier. -/
theorem C2_acceptance_rule_witness :
    Engine.DrawWinners (fun _ => 0) [⟨"A", 1⟩] [⟨1, "T", 5, 1, 0, 1⟩]
      (fun m t => m == "A" && t == 9) =
      .ok [⟨"T", 1, "A", 1, false⟩] ∧
    (∀ w ∈ ([⟨"T", 1, "A", 1, false⟩] : List Engine.WinnerResult),
      (fun (m : String) (t : Nat) => m == "A" && t == 9) w.msisdn w.tierId = false) :=
  ⟨by decide,
    C2_acceptance_rule.2.2 (fun _ => 0) [⟨"A", 1⟩] [⟨1, "T", 5, 1, 0, 1⟩]
      (fun m t => m == "A" && t == 9) _ (by decide)⟩

/-- C6: the draw engine never returns an error whatever the pool, the
tiers, the past-wins map and the random stream (a pool smaller than the
requested slots just fills what it can); in particular a pool of one
entry with a tier of quantity 5 yields exactly one main winner, no
runner-ups and no error. -/
theorem C6_small_pool_no_error :
    (∀ (rand : Nat → Nat) (entries : List EligibleEntry) (tiers : List PrizeTier)
      (pastWins : String → Nat → Bool),
      ∃ ws, Engine.DrawWinners rand entries tiers pastWins = .ok ws) ∧
    Engine.DrawWinners (fun _ => 0) [⟨"A", 5⟩] [⟨7, "Jackpot", 100, 5, 2, 1⟩]
      (fun _ _ => false) = .ok [⟨"Jackpot", 7, "A", 1, false⟩] := by
  constructor
  · intro rand entries tiers pastWins
    exact Engine.drawTiers_isOk
  · decide

end Promo

namespace Promo

/-- C5: within a tier the mains precede the runner-ups in the returned
list, main positions are consecutive from 1 in selection order, and the
position counter restarts at 1 for the runner-ups; `isRunnerUp` is
false exactly on the mains and true exactly on the runner-ups, so the
two filters partition the tier's winners. -/
theorem C5_positions (rand : Nat → Nat) (pw : String → Nat → Bool)
    (t : PrizeTier) (st : Engine.EngineState) (ws : List Engine.WinnerResult)
    (st' : Engine.EngineState)
    (h : Engine.drawTier rand pw t st = .ok (ws, st')) :
    ws = ws.filter (fun w => !w.isRunnerUp) ++ ws.filter (·.isRunnerUp) ∧
    (ws.filter (fun w => !w.isRunnerUp)).map (·.position) =
      List.range' 1 (ws.filter (fun w => !w.isRunnerUp)).length ∧
    (ws.filter (·.isRunnerUp)).map (·.position) =
      List.range' 1 (ws.filter (·.isRunnerUp)).length := by
  obtain ⟨mains, runners, hws⟩ := Engine.drawTier_shape h
  subst hws
  have hm := Engine.positionsFrom_filter_not_ru t 1 mains
  have hr := Engine.positionsFrom_filter_ru t 1 runners
  simp only [List.filter_append, hm.1, hm.2, hr.1, hr.2, List.append_nil,
    List.nil_append]
  refine ⟨trivial, ?_, ?_⟩
  · rw [Engine.positionsFrom_map_position, Engine.positionsFrom_length]
  · rw [Engine.positionsFrom_map_position, Engine.positionsFrom_length]

/-- C5 witness: a concrete one-main one-runner-up tier; the main takes
position 1 and the runner-up restarts at position 1. -/
theorem C5_positions_witness :
    ([⟨"T", 1, "A", 1, false⟩, ⟨"T", 1, "B", 1, true⟩] : List Engine.WinnerResult) =
      ([⟨"T", 1, "A", 1, false⟩, ⟨"T", 1, "B", 1, true⟩] :
        List Engine.WinnerResult).filter (fun w => !w.isRunnerUp) ++
      ([⟨"T", 1, "A", 1, false⟩, ⟨"T", 1, "B", 1, true⟩] :
        List Engine.WinnerResult).filter (·.isRunnerUp) ∧
    (([⟨"T", 1, "A", 1, false⟩, ⟨"T", 1, "B", 1, true⟩] :
        List Engine.WinnerResult).filter (fun w => !w.isRunnerUp)).map (·.position) =
      List.range' 1 (([⟨"T", 1, "A", 1, false⟩, ⟨"T", 1, "B", 1, true⟩] :
        List Engine.WinnerResult).filter (fun w => !w.isRunnerUp)).length ∧
    (([⟨"T", 1, "A", 1, false⟩, ⟨"T", 1, "B", 1, true⟩] :
        List Engine.WinnerResult).filter (·.isRunnerUp)).map (·.position) =
      List.range' 1 (([⟨"T", 1, "A", 1, false⟩, ⟨"T", 1, "B", 1, true⟩] :
        List Engine.WinnerResult).filter (·.isRunnerUp)).length :=
  C5_positions (fun _ => 0) (fun _ _ => false) ⟨1, "T", 10, 1, 1, 1⟩
    ⟨[("A", 1), ("B", 1)], [], 0⟩ _ ⟨[], ["A", "B"], 2⟩ (by decide)

end Promo

namespace Promo

theorem rejectAllPick (u : Nat) :
    ∃ m, Engine.pickOneMSISDN (buildCum 0 [("B", 1)]) (weightSum [("B", 1)]) u =
        .ok m ∧
      Engine.accept ["A"] (fun m t => m == "B" && t == 1) 1 m = false := by
  refine ⟨"B", ?_, by decide⟩
  simp [Engine.pickOneMSISDN, buildCum, weightSum, Nat.mod_one]

theorem rejectAllSlot (rand : Nat → Nat) (k : Nat) :
    Engine.drawSlot rand (fun m t => m == "B" && t == 1) 1 [("B", 1)] ["A"]
      Engine.attemptCap k = .exhausted (k + 20000) :=
  Engine.drawSlot_exhausted_of_reject rejectAllPick Engine.attemptCap k

/-- C7: each selection slot consumes at most 20,000 random words (the
attempt cap); a slot that exhausts its cap makes the phase return
successfully with the aborted flag, skipping the current and all
subsequent slots; a tier whose main phase aborted returns only the
mains already drawn (runner-up slots are skipped) yet still yields a
successful result to commit; sampler errors are not recovered: they
abort the slot phase and propagate through the tier loop. -/
theorem C7_attempt_cap_and_recovery :
    (∀ (rand : Nat → Nat) (pw : String → Nat → Bool) (tid : Nat)
      (pool : List (String × Nat)) (sel : List String) (k : Nat),
      Engine.slotK (Engine.drawSlot rand pw tid pool sel Engine.attemptCap k) ≤
        k + 20000) ∧
    (∀ (rand : Nat → Nat) (pw : String → Nat → Bool) (tid n : Nat)
      (st : Engine.EngineState) (k : Nat),
      weightSum st.pool ≠ 0 →
      Engine.drawSlot rand pw tid st.pool st.selected Engine.attemptCap st.k =
        .exhausted k →
      Engine.drawSlots rand pw tid (n+1) st =
        .ok ([], ⟨st.pool, st.selected, k⟩, true)) ∧
    (∀ (rand : Nat → Nat) (pw : String → Nat → Bool) (t : PrizeTier)
      (st : Engine.EngineState) (ms : List String) (st1 : Engine.EngineState),
      Engine.drawSlots rand pw t.id t.quantity st = .ok (ms, st1, true) →
      Engine.drawTier rand pw t st = .ok (Engine.positionsFrom t false 1 ms, st1)) ∧
    (∀ (rand : Nat → Nat) (pw : String → Nat → Bool) (tid n : Nat)
      (st : Engine.EngineState) (e : Engine.RngError) (k' : Nat),
      weightSum st.pool ≠ 0 →
      Engine.drawSlot rand pw tid st.pool st.selected Engine.attemptCap st.k =
        .err e k' →
      Engine.drawSlots rand pw tid (n+1) st = .error e) ∧
    (∀ (rand : Nat → Nat) (pw : String → Nat → Bool) (t : PrizeTier)
      (ts : List PrizeTier) (st : Engine.EngineState) (e : Engine.RngError),
      Engine.drawTier rand pw t st = .error e →
      Engine.drawTiers rand pw (t :: ts) st = .error e) := by
  refine ⟨?_, ?_, ?_, ?_, ?_⟩
  · intro rand pw tid pool sel k
    exact Engine.drawSlot_slotK_le Engine.attemptCap k
  · intro rand pw tid n st k hz hex
    exact Engine.drawSlots_exhausted_step hz hex
  · intro rand pw t st ms st1 h
    exact Engine.drawTier_aborted h
  · intro rand pw tid n st e k' hz he
    exact Engine.drawSlots_err_step hz he
  · intro rand pw t ts st e h
    simp only [Engine.drawTiers]
    rw [h]

/-- C7 witness: a concrete slot whose candidates are all past winners
of the tier exhausts its cap after exactly 20,000 samples and the
surrounding phase returns successfully with the aborted flag. -/
theorem C7_attempt_cap_and_recovery_witness :
    Engine.slotK (Engine.drawSlot (fun _ => 0) (fun _ _ => false) 1 [("A", 1)] []
      Engine.attemptCap 0) ≤ 0 + 20000 ∧
    Engine.drawSlots (fun _ => 0) (fun m t => m == "B" && t == 1) 1 (0+1)
      ⟨[("B", 1)], ["A"], 2⟩ = .ok ([], ⟨[("B", 1)], ["A"], 20002⟩, true) :=
  ⟨C7_attempt_cap_and_recovery.1 (fun _ => 0) (fun _ _ => false) 1 [("A", 1)] [] 0,
    C7_attempt_cap_and_recovery.2.1 (fun _ => 0) (fun m t => m == "B" && t == 1)
      1 0 ⟨[("B", 1)], ["A"], 2⟩ 20002 (by decide)
      (by simpa using rejectAllSlot (fun _ => 0) 2)⟩

/-- C4 counterexample: pool A and B each of weight 1, B a past winner
of this tier, quantity 1 and runnerUpCount 1.  One main (A) is drawn,
the remaining pool has size 1, so the claimed count of runner-ups is
min(1 × 1, 1) = 1, but the runner-up slot can only sample B, exhausts
the attempt cap, and zero runner-ups are drawn. -/
theorem C4_counterexample :
    Engine.drawTier (fun i => if i = 0 then 1 else 0)
        (fun m t => m == "B" && t == 1)
        ⟨1, "T", 10, 1, 1, 1⟩ ⟨[("A", 1), ("B", 1)], [], 0⟩ =
      .ok ([⟨"T", 1, "A", 1, false⟩], ⟨[("B", 1)], ["A"], 20002⟩) ∧
    (([⟨"T", 1, "A", 1, false⟩] : List Engine.WinnerResult).filter
      (·.isRunnerUp)).length = 0 ∧
    min (1 * 1) 1 = 1 := by
  refine ⟨?_, by decide, by decide⟩
  have hd1 : Engine.drawSlot (fun i => if i = 0 then 1 else 0)
      (fun m t => m == "B" && t == 1) 1 [("A", 1), ("B", 1)] []
      Engine.attemptCap 0 = .ok "A" 2 := by decide
  have hs1 : Engine.drawSlots (fun i => if i = 0 then 1 else 0)
      (fun m t => m == "B" && t == 1) 1 1 ⟨[("A", 1), ("B", 1)], [], 0⟩ =
      .ok (["A"], ⟨[("B", 1)], ["A"], 2⟩, false) := by
    simp only [Engine.drawSlots]
    rw [if_neg (by decide), hd1]
    dsimp only
    decide
  have hs2 : Engine.drawSlots (fun i => if i = 0 then 1 else 0)
      (fun m t => m == "B" && t == 1) 1 (0+1) ⟨[("B", 1)], ["A"], 2⟩ =
      .ok ([], ⟨[("B", 1)], ["A"], 20002⟩, true) :=
    Engine.drawSlots_exhausted_step (by decide)
      (by simpa using rejectAllSlot (fun i => if i = 0 then 1 else 0) 2)
  have hs2' : Engine.drawSlots (fun i => if i = 0 then 1 else 0)
      (fun m t => m == "B" && t == 1) 1 ((["A"] : List String).length * 1)
      ⟨[("B", 1)], ["A"], 2⟩ =
      .ok ([], ⟨[("B", 1)], ["A"], 20002⟩, true) := hs2
  simp only [Engine.drawTier]
  rw [hs1]
  dsimp only
  simp only [Bool.false_eq_true, if_false]
  rw [hs2']
  dsimp only
  decide

/-- C4 amended: when every remaining candidate carries at least one
ticket, pool msisdns are distinct and none is already selected or a
past winner of this tier, a tier draws M = min(quantity, pool size)
mains and exactly min(M × runnerUpCount, pool size − M) runner-ups; in
general (see the counterexample) disqualified candidates can exhaust
the attempt cap and leave the runner-up count below this bound. -/
theorem C4_runner_ups_per_main (rand : Nat → Nat) (pw : String → Nat → Bool)
    (t : PrizeTier) (st : Engine.EngineState)
    (h1 : ∀ p ∈ st.pool, 1 ≤ p.2)
    (h2 : (st.pool.map (·.1)).Nodup)
    (h3 : ∀ p ∈ st.pool, p.1 ∉ st.selected)
    (h4 : ∀ p ∈ st.pool, pw p.1 t.id = false) :
    ∃ ws st',
      Engine.drawTier rand pw t st = .ok (ws, st') ∧
      (ws.filter (fun w => !w.isRunnerUp)).length =
        min t.quantity st.pool.length ∧
      (ws.filter (·.isRunnerUp)).length =
        min ((min t.quantity st.pool.length) * t.runnerUpCount)
          (st.pool.length - min t.quantity st.pool.length) := by
  obtain ⟨mains, st1, hs1, hlen1, hplen1, g1, g2, g3, g4⟩ :=
    @Engine.drawSlots_full rand pw t.id t.quantity st h1 h2 h3 h4
  obtain ⟨runners, st2, hs2, hlen2, hplen2, k1, k2, k3, k4⟩ :=
    @Engine.drawSlots_full rand pw t.id (mains.length * t.runnerUpCount) st1 g1 g2 g3 g4
  refine ⟨Engine.positionsFrom t false 1 mains ++
    Engine.positionsFrom t true 1 runners, st2, ?_, ?_, ?_⟩
  · simp only [Engine.drawTier]
    rw [hs1]
    dsimp only
    simp only [Bool.false_eq_true, if_false]
    rw [hs2]
  · simp only [List.filter_append,
      (Engine.positionsFrom_filter_not_ru t 1 mains).1,
      (Engine.positionsFrom_filter_ru t 1 runners).2, List.append_nil]
    rw [Engine.positionsFrom_length]
    exact hlen1
  · simp only [List.filter_append,
      (Engine.positionsFrom_filter_not_ru t 1 mains).2,
      (Engine.positionsFrom_filter_ru t 1 runners).1, List.nil_append]
    rw [Engine.positionsFrom_length, hlen2, hplen1, hlen1]
    have hsub : st.pool.length - t.quantity =
        st.pool.length - min t.quantity st.pool.length := by omega
    rw [hsub]

/-- C4 amended witness: pool A and B, no disqualifications, quantity 1
and runnerUpCount 1 give one main and one runner-up. -/
theorem C4_runner_ups_per_main_witness :
    ∃ ws st',
      Engine.drawTier (fun _ => 0) (fun _ _ => false) ⟨1, "T", 10, 1, 1, 1⟩
          ⟨[("A", 1), ("B", 1)], [], 0⟩ = .ok (ws, st') ∧
      (ws.filter (fun w => !w.isRunnerUp)).length =
        min (1 : Nat) 2 ∧
      (ws.filter (·.isRunnerUp)).length = min ((min (1 : Nat) 2) * 1) (2 - min (1 : Nat) 2) :=
  C4_runner_ups_per_main (fun _ => 0) (fun _ _ => false) ⟨1, "T", 10, 1, 1, 1⟩
    ⟨[("A", 1), ("B", 1)], [], 0⟩ (by decide) (by decide) (by decide) (by decide)

end Promo

namespace Promo.Handlers

theorem commitDraw_cases (db : DBState) (nd : Draw) (rows : List WinnerRow)
    (failAt : Nat → Bool) :
    (commitDraw db nd rows failAt).2 = db ∨
    ((commitDraw db nd rows failAt).1 = .ok rows ∧
      (commitDraw db nd rows failAt).2 =
        ⟨db.draws ++ [nd], db.winners ++ rows, db.structures⟩) := by
  unfold commitDraw
  by_cases h0 : failAt 0
  · rw [if_pos h0]; left; rfl
  · rw [if_neg h0]
    by_cases hw : txSaveWinners failAt 1 rows = true
    · rw [if_pos hw]; right; exact ⟨rfl, rfl⟩
    · rw [if_neg hw]; left; rfl

theorem commitDraw_ok {db : DBState} {nd : Draw} {rows : List WinnerRow}
    {failAt : Nat → Bool} {rows' : List WinnerRow} {db' : DBState}
    (h : commitDraw db nd rows failAt = (.ok rows', db')) :
    rows' = rows ∧
    db' = ⟨db.draws ++ [nd], db.winners ++ rows, db.structures⟩ := by
  unfold commitDraw at h
  by_cases h0 : failAt 0
  · rw [if_pos h0] at h; cases h
  · rw [if_neg h0] at h
    by_cases hw : txSaveWinners failAt 1 rows = true
    · rw [if_pos hw] at h
      injection h with h1 h2
      injection h1 with h1
      exact ⟨h1.symm, h2.symm⟩
    · rw [if_neg hw] at h; cases h

theorem commitDraw_not_conflict (db : DBState) (nd : Draw) (rows : List WinnerRow)
    (failAt : Nat → Bool) (i : Nat) (b : Bool) :
    (commitDraw db nd rows failAt).1 ≠ .conflict i b := by
  unfold commitDraw
  by_cases h0 : failAt 0
  · rw [if_pos h0]; intro h; cases h
  · rw [if_neg h0]
    by_cases hw : txSaveWinners failAt 1 rows = true
    · rw [if_pos hw]; intro h; cases h
    · rw [if_neg hw]; intro h; cases h

theorem winnerRows_drawId (tiers : List PrizeTier) (newDrawId : Nat)
    (winnerIds : Nat → Nat) (results : List Engine.WinnerResult) :
    ∀ r ∈ winnerRows tiers newDrawId winnerIds results, r.drawId = newDrawId := by
  intro r hr
  obtain ⟨p, _, hp⟩ := List.mem_map.mp hr
  rw [← hp]

end Promo.Handlers

namespace Promo

/-- C3: both draw handlers write the draw row and all of its winner
rows inside one transaction: whatever the failure oracle does, the
store afterwards is either exactly the initial store (full rollback) or
the initial store extended by the one new draw row together with its
complete winner set, every winner row referencing the new draw id; no
partially-written draw is ever persisted. -/
theorem C3_transactional_persistence :
    (∀ (db : Handlers.DBState) (req : Handlers.DrawRequest)
      (phEntries : List EligibleEntry) (rand : Nat → Nat)
      (newDrawId adminId : Nat) (winnerIds : Nat → Nat) (failAt : Nat → Bool),
      (Handlers.ExecuteDraw db req phEntries rand newDrawId adminId winnerIds failAt).2 =
        db ∨
      ∃ nd rows,
        (Handlers.ExecuteDraw db req phEntries rand newDrawId adminId winnerIds
          failAt).1 = .ok rows ∧
        (Handlers.ExecuteDraw db req phEntries rand newDrawId adminId winnerIds
          failAt).2 = ⟨db.draws ++ [nd], db.winners ++ rows, db.structures⟩ ∧
        nd.id = newDrawId ∧ (∀ r ∈ rows, r.drawId = newDrawId)) ∧
    (∀ (db : Handlers.DBState) (origDrawId : Nat)
      (reqEntries phEntries : List EligibleEntry) (rand : Nat → Nat)
      (newDrawId adminId : Nat) (winnerIds : Nat → Nat) (failAt : Nat → Bool),
      (Handlers.RerunDraw db origDrawId reqEntries phEntries rand newDrawId adminId
        winnerIds failAt).2 = db ∨
      ∃ nd rows,
        (Handlers.RerunDraw db origDrawId reqEntries phEntries rand newDrawId adminId
          winnerIds failAt).1 = .ok rows ∧
        (Handlers.RerunDraw db origDrawId reqEntries phEntries rand newDrawId adminId
          winnerIds failAt).2 =
            ⟨db.draws ++ [nd], db.winners ++ rows, db.structures⟩ ∧
        nd.id = newDrawId ∧ (∀ r ∈ rows, r.drawId = newDrawId)) := by
  constructor
  · intro db req phEntries rand newDrawId adminId winnerIds failAt
    unfold Handlers.ExecuteDraw
    cases hfind : db.draws.find? (fun d => d.drawDate == req.drawDate) with
    | some existing => left; rfl
    | none =>
      cases hps : db.structures.find? (fun s0 => s0.id == req.prizeStructureId) with
      | none => left; rfl
      | some ps =>
        dsimp only
        by_cases hemp :
            (Handlers.chooseEntries req.msisdnEntries phEntries).isEmpty = true
        · rw [if_pos hemp]; left; rfl
        · rw [if_neg hemp]
          cases hdw : Engine.DrawWinners rand
              (Handlers.chooseEntries req.msisdnEntries phEntries) ps.tiers
              (Handlers.pastWinsByTier db) with
          | error e => left; rfl
          | ok results =>
            rcases Handlers.commitDraw_cases db
                ⟨newDrawId, req.drawDate, ps.id,
                  ((Handlers.chooseEntries req.msisdnEntries phEntries).map
                    (·.points)).sum,
                  adminId, Handlers.chooseSource req.msisdnEntries, false⟩
                (Handlers.winnerRows ps.tiers newDrawId winnerIds results) failAt with
              hc | hc
            · left; exact hc
            · right
              exact ⟨_, _, hc.1, hc.2,
                rfl, Handlers.winnerRows_drawId ps.tiers newDrawId winnerIds results⟩
  · intro db origDrawId reqEntries phEntries rand newDrawId adminId winnerIds failAt
    unfold Handlers.RerunDraw
    cases hfind : db.draws.find? (fun d => d.id == origDrawId) with
    | none => left; rfl
    | some oldDraw =>
      dsimp only
      cases hps : db.structures.find? (fun s0 => s0.id == oldDraw.prizeStructureId) with
      | none => left; rfl
      | some ps =>
        dsimp only
        by_cases hemp : (Handlers.chooseEntries reqEntries phEntries).isEmpty = true
        · rw [if_pos hemp]; left; rfl
        · rw [if_neg hemp]
          cases hdw : Engine.DrawWinners rand
              (Handlers.chooseEntries reqEntries phEntries) ps.tiers
              (Handlers.pastWinsByTier db) with
          | error e => left; rfl
          | ok results =>
            rcases Handlers.commitDraw_cases db
                ⟨newDrawId, oldDraw.drawDate, ps.id,
                  ((Handlers.chooseEntries reqEntries phEntries).map (·.points)).sum,
                  adminId, Handlers.chooseSource reqEntries, true⟩
                (Handlers.winnerRows ps.tiers newDrawId winnerIds results) failAt with
              hc | hc
            · left; exact hc
            · right
              exact ⟨_, _, hc.1, hc.2,
                rfl, Handlers.winnerRows_drawId ps.tiers newDrawId winnerIds results⟩

end Promo

namespace Promo

/-- C8: a non-rerun ExecuteDraw whose drawDate already has a draw is
rejected with a conflict reporting the existing draw's id and a
rerun-eligible indicator, leaving the store unchanged; a successful
RerunDraw creates one new draw with isRerun true reusing the original
draw's drawDate and prizeStructureId while every pre-existing draw row,
the original included, is still present unmodified; and RerunDraw never
produces the conflict outcome (the one-per-date guard is bypassed). -/
theorem C8_guard_and_rerun :
    (∀ (db : Handlers.DBState) (req : Handlers.DrawRequest)
      (phEntries : List EligibleEntry) (rand : Nat → Nat)
      (newDrawId adminId : Nat) (winnerIds : Nat → Nat) (failAt : Nat → Bool),
      (∃ d ∈ db.draws, d.drawDate = req.drawDate) →
      ∃ ex ∈ db.draws, ex.drawDate = req.drawDate ∧
        Handlers.ExecuteDraw db req phEntries rand newDrawId adminId winnerIds
          failAt = (.conflict ex.id true, db)) ∧
    (∀ (db : Handlers.DBState) (origDrawId : Nat)
      (reqEntries phEntries : List EligibleEntry) (rand : Nat → Nat)
      (newDrawId adminId : Nat) (winnerIds : Nat → Nat) (failAt : Nat → Bool)
      (rows : List Handlers.WinnerRow) (db' : Handlers.DBState),
      Handlers.RerunDraw db origDrawId reqEntries phEntries rand newDrawId adminId
        winnerIds failAt = (.ok rows, db') →
      ∃ old ∈ db.draws, old.id = origDrawId ∧
        ∃ nd : Handlers.Draw,
          db'.draws = db.draws ++ [nd] ∧
          nd.isRerun = true ∧ nd.drawDate = old.drawDate ∧
          nd.prizeStructureId = old.prizeStructureId ∧
          ∀ d ∈ db.draws, d ∈ db'.draws) ∧
    (∀ (db : Handlers.DBState) (origDrawId : Nat)
      (reqEntries phEntries : List EligibleEntry) (rand : Nat → Nat)
      (newDrawId adminId : Nat) (winnerIds : Nat → Nat) (failAt : Nat → Bool)
      (i : Nat) (b : Bool),
      (Handlers.RerunDraw db origDrawId reqEntries phEntries rand newDrawId adminId
        winnerIds failAt).1 ≠ .conflict i b) := by
  refine ⟨?_, ?_, ?_⟩
  · intro db req phEntries rand newDrawId adminId winnerIds failAt hex
    have hsome : (db.draws.find? (fun d => d.drawDate == req.drawDate)).isSome := by
      rw [List.find?_isSome]
      obtain ⟨d, hd, hdate⟩ := hex
      exact ⟨d, hd, by simp [hdate]⟩
    obtain ⟨ex, heq⟩ := Option.isSome_iff_exists.mp hsome
    have hdate : ex.drawDate = req.drawDate := by
      have := List.find?_some heq
      simpa using this
    refine ⟨ex, List.mem_of_find?_eq_some heq, hdate, ?_⟩
    unfold Handlers.ExecuteDraw
    rw [heq]
  · intro db origDrawId reqEntries phEntries rand newDrawId adminId winnerIds
      failAt rows db' h
    unfold Handlers.RerunDraw at h
    cases hfind : db.draws.find? (fun d => d.id == origDrawId) with
    | none =>
      rw [hfind] at h
      dsimp only at h
      injection h with h1 h2
      cases h1
    | some oldDraw =>
      rw [hfind] at h
      dsimp only at h
      cases hps : db.structures.find?
          (fun s0 => s0.id == oldDraw.prizeStructureId) with
      | none =>
        rw [hps] at h
        dsimp only at h
        injection h with h1 h2
        cases h1
      | some ps =>
        rw [hps] at h
        dsimp only at h
        by_cases hemp : (Handlers.chooseEntries reqEntries phEntries).isEmpty = true
        · rw [if_pos hemp] at h
          injection h with h1 h2
          cases h1
        · rw [if_neg hemp] at h
          cases hdw : Engine.DrawWinners rand
              (Handlers.chooseEntries reqEntries phEntries) ps.tiers
              (Handlers.pastWinsByTier db) with
          | error e =>
            rw [hdw] at h
            dsimp only at h
            injection h with h1 h2
            cases h1
          | ok results =>
            rw [hdw] at h
            dsimp only at h
            obtain ⟨hrows, hdb'⟩ := Handlers.commitDraw_ok h
            have hpsid : ps.id = oldDraw.prizeStructureId := by
              have := List.find?_some hps
              simpa using this
            have holdid : oldDraw.id = origDrawId := by
              have := List.find?_some hfind
              simpa using this
            refine ⟨oldDraw, List.mem_of_find?_eq_some hfind, holdid,
              ⟨newDrawId, oldDraw.drawDate, ps.id,
                ((Handlers.chooseEntries reqEntries phEntries).map (·.points)).sum,
                adminId, Handlers.chooseSource reqEntries, true⟩,
              ?_, rfl, rfl, hpsid, ?_⟩
            · rw [hdb']
            · intro d hd
              rw [hdb']
              exact List.mem_append_left _ hd
  · intro db origDrawId reqEntries phEntries rand newDrawId adminId winnerIds
      failAt i b
    unfold Handlers.RerunDraw
    cases hfind : db.draws.find? (fun d => d.id == origDrawId) with
    | none => intro h; cases h
    | some oldDraw =>
      dsimp only
      cases hps : db.structures.find?
          (fun s0 => s0.id == oldDraw.prizeStructureId) with
      | none => intro h; cases h
      | some ps =>
        dsimp only
        by_cases hemp : (Handlers.chooseEntries reqEntries phEntries).isEmpty = true
        · rw [if_pos hemp]; intro h; cases h
        · rw [if_neg hemp]
          cases hdw : Engine.DrawWinners rand
              (Handlers.chooseEntries reqEntries phEntries) ps.tiers
              (Handlers.pastWinsByTier db) with
          | error e => intro h; cases h
          | ok results =>
            dsimp only
            exact Handlers.commitDraw_not_conflict db _ _ failAt i b

end Promo

namespace Promo

/-- C8 witness: a store holding a draw for date 100; a second
non-rerun ExecuteDraw for date 100 yields the conflict outcome with the
existing id and the store unchanged, while a RerunDraw of that draw
commits a new isRerun draw reusing its date and prize structure with
the original row still present. -/
theorem C8_guard_and_rerun_witness :
    (∃ ex ∈ ([⟨5, 100, 1, 10, 9, "CSV", false⟩] : List Handlers.Draw),
      ex.drawDate = (100 : Int) ∧
      Handlers.ExecuteDraw
        ⟨[⟨5, 100, 1, 10, 9, "CSV", false⟩], [], [⟨1, [⟨1, "T", 10, 1, 0, 1⟩]⟩]⟩
        ⟨100, 1, []⟩ [] (fun _ => 0) 77 9 (fun i => 100 + i) (fun _ => false) =
        (.conflict ex.id true,
          ⟨[⟨5, 100, 1, 10, 9, "CSV", false⟩], [],
            [⟨1, [⟨1, "T", 10, 1, 0, 1⟩]⟩]⟩)) ∧
    (∃ old ∈ ([⟨5, 100, 1, 10, 9, "CSV", false⟩] : List Handlers.Draw),
      old.id = 5 ∧
      ∃ nd : Handlers.Draw,
        (⟨[⟨5, 100, 1, 10, 9, "CSV", false⟩, ⟨77, 100, 1, 1, 9, "CSV", true⟩],
          [⟨100, 77, 1, "A", 1, false⟩], [⟨1, [⟨1, "T", 10, 1, 0, 1⟩]⟩]⟩ :
          Handlers.DBState).draws =
          [⟨5, 100, 1, 10, 9, "CSV", false⟩] ++ [nd] ∧
        nd.isRerun = true ∧ nd.drawDate = old.drawDate ∧
        nd.prizeStructureId = old.prizeStructureId ∧
        ∀ d ∈ ([⟨5, 100, 1, 10, 9, "CSV", false⟩] : List Handlers.Draw),
          d ∈ (⟨[⟨5, 100, 1, 10, 9, "CSV", false⟩, ⟨77, 100, 1, 1, 9, "CSV", true⟩],
            [⟨100, 77, 1, "A", 1, false⟩], [⟨1, [⟨1, "T", 10, 1, 0, 1⟩]⟩]⟩ :
            Handlers.DBState).draws) :=
  ⟨C8_guard_and_rerun.1
      ⟨[⟨5, 100, 1, 10, 9, "CSV", false⟩], [], [⟨1, [⟨1, "T", 10, 1, 0, 1⟩]⟩]⟩
      ⟨100, 1, []⟩ [] (fun _ => 0) 77 9 (fun i => 100 + i) (fun _ => false)
      (by decide),
    C8_guard_and_rerun.2.1
      ⟨[⟨5, 100, 1, 10, 9, "CSV", false⟩], [], [⟨1, [⟨1, "T", 10, 1, 0, 1⟩]⟩]⟩
      5 [⟨"A", 1⟩] [] (fun _ => 0) 77 9 (fun i => 100 + i) (fun _ => false)
      [⟨100, 77, 1, "A", 1, false⟩]
      ⟨[⟨5, 100, 1, 10, 9, "CSV", false⟩, ⟨77, 100, 1, 1, 9, "CSV", true⟩],
        [⟨100, 77, 1, "A", 1, false⟩], [⟨1, [⟨1, "T", 10, 1, 0, 1⟩]⟩]⟩
      (by decide)⟩

end Promo

namespace Promo

/-- C9: the eligibility window function is pure, always ends at
17:00:00 (second 61200) of the draw date, and starts at 17:00:01
(second 61201) three days earlier on Mondays, seven days earlier on
Saturdays, and one day earlier on every other weekday (Tuesday through
Friday and Sunday); day 0 is a Sunday and Go weekday numbers are
0 through 6. -/
theorem C9_eligibility_window (d : Int) :
    Handlers.computePostHogWindow d = Handlers.computePostHogWindow d ∧
    (Handlers.computePostHogWindow d).2 = ⟨d, 61200⟩ ∧
    (0 ≤ Handlers.weekday d ∧ Handlers.weekday d < 7) ∧
    (Handlers.weekday d = 1 →
      (Handlers.computePostHogWindow d).1 = ⟨d - 3, 61201⟩) ∧
    (Handlers.weekday d = 6 →
      (Handlers.computePostHogWindow d).1 = ⟨d - 7, 61201⟩) ∧
    (Handlers.weekday d ≠ 1 ∧ Handlers.weekday d ≠ 6 →
      (Handlers.computePostHogWindow d).1 = ⟨d - 1, 61201⟩) := by
  refine ⟨rfl, rfl, ⟨?_, ?_⟩, ?_, ?_, ?_⟩
  · exact Int.emod_nonneg d (by norm_num)
  · exact Int.emod_lt_of_pos d (by norm_num)
  · intro h1
    simp [Handlers.computePostHogWindow, h1]
  · intro h6
    simp [Handlers.computePostHogWindow, h6]
  · rintro ⟨h1, h6⟩
    simp [Handlers.computePostHogWindow, h1, h6]

/-- C9 witness: day 1 is a Monday (start three days back), day 6 a
Saturday (seven days back), day 3 a Wednesday (one day back). -/
theorem C9_eligibility_window_witness :
    (Handlers.computePostHogWindow 1).1 = ⟨1 - 3, 61201⟩ ∧
    (Handlers.computePostHogWindow 6).1 = ⟨6 - 7, 61201⟩ ∧
    (Handlers.computePostHogWindow 3).1 = ⟨3 - 1, 61201⟩ :=
  ⟨(C9_eligibility_window 1).2.2.2.1 (by decide),
    (C9_eligibility_window 6).2.2.2.2.1 (by decide),
    (C9_eligibility_window 3).2.2.2.2.2 ⟨by decide, by decide⟩⟩

theorem expand_aux_points (rows : List HandlersV1.MSISDNEntry) :
    ∀ acc : List EligibleEntry, (∀ e ∈ acc, e.points = 0) →
      ∀ e ∈ rows.foldl
        (fun acc row => acc ++ List.replicate row.points ⟨row.msisdn, 0⟩) acc,
      e.points = 0 := by
  induction rows with
  | nil => intro acc hacc e he; exact hacc e he
  | cons r rest ih =>
    intro acc hacc e he
    refine ih _ ?_ e he
    intro x hx
    rcases List.mem_append.mp hx with hx | hx
    · exact hacc x hx
    · rw [List.eq_of_mem_replicate hx]

theorem expand_aux_length (rows : List HandlersV1.MSISDNEntry) :
    ∀ acc : List EligibleEntry,
      (rows.foldl
        (fun acc row => acc ++ List.replicate row.points ⟨row.msisdn, 0⟩)
        acc).length = acc.length + (rows.map (·.points)).sum := by
  induction rows with
  | nil => intro acc; simp
  | cons r rest ih =>
    intro acc
    simp only [List.foldl_cons, List.map_cons, List.sum_cons]
    rw [ih]
    simp
    omega

theorem mem_buildCum_weight :
    ∀ {l : List (String × Nat)} {a : Nat} (e : WeightedEntry),
      e ∈ buildCum a l → ∃ p ∈ l, e.weight = p.2 := by
  intro l
  induction l with
  | nil => intro a e he; cases he
  | cons p ps ih =>
    intro a e he
    rcases List.mem_cons.mp he with rfl | he
    · exact ⟨p, by simp⟩
    · obtain ⟨q, hq, hw⟩ := ih e he
      exact ⟨q, List.mem_cons_of_mem _ hq, hw⟩

theorem drawMainsV1_err {rand : Nat → Nat} {t : PrizeTier}
    {pool : List WeightedEntry} {total : Nat} {past : List String}
    {pos k : Nat} (hz : total % 4294967296 = 0) {n : Nat} (hn : 1 ≤ n) :
    RngV1.drawMains rand t n pool total past pos k =
      .error .divideByZero := by
  cases n with
  | zero => omega
  | succ n' =>
    simp only [RngV1.drawMains]
    have hp : RngV1.pickOneMSISDN pool total (rand k) =
        .error .divideByZero := by
      simp [RngV1.pickOneMSISDN, hz]
    rw [hp]

theorem drawTierV1_err {rand : Nat → Nat} {t : PrizeTier}
    {pool : List WeightedEntry} {total : Nat} {past : List String} {k : Nat}
    (hz : total % 4294967296 = 0) (hq : 1 ≤ t.quantity) :
    RngV1.drawTierV1 rand t pool total past k = .error .divideByZero := by
  simp only [RngV1.drawTierV1]
  rw [drawMainsV1_err hz hq]

theorem DrawWinnersV1_err {rand : Nat → Nat} {entries : List EligibleEntry}
    {past : List String} {t : PrizeTier} {ts : List PrizeTier}
    (htot : ((entries.map (·.points)).sum) % 4294967296 = 0)
    (hq : 1 ≤ t.quantity) :
    RngV1.DrawWinners rand entries (t :: ts) past =
      .error .divideByZero := by
  unfold RngV1.DrawWinners
  dsimp only
  unfold RngV1.DrawWinners.go
  rw [drawTierV1_err
    (show (RngV1.BuildWeightedEntries entries).2 % 4294967296 = 0 from htot) hq]

/-- C10: in the legacy handler (src/internal/handlers/draw.go), a
caller-supplied msisdn_entries list is expanded into `points` copies of
an EligibleEntry whose Points field is left at zero, so the legacy
generator builds a pool whose every weight is 0 with totalPoints 0, and
the sampler's reduction modulo `uint32(totalPoints)` on the very first
pick is a modulo by zero — a Go runtime panic, modelled as the
divide-by-zero failure the legacy DrawWinners then surfaces for any
tier list whose first tier requests at least one main winner. -/
theorem C10_csv_zero_weights (rows : List HandlersV1.MSISDNEntry)
    (hne : rows ≠ []) (hpts : ∀ r ∈ rows, 1 ≤ r.points) :
    (∀ e ∈ HandlersV1.expandEntries rows, e.points = 0) ∧
    HandlersV1.expandEntries rows ≠ [] ∧
    (RngV1.BuildWeightedEntries (HandlersV1.expandEntries rows)).2 = 0 ∧
    (∀ we ∈ (RngV1.BuildWeightedEntries (HandlersV1.expandEntries rows)).1,
      we.weight = 0) ∧
    (∀ u, RngV1.pickOneMSISDN
        (RngV1.BuildWeightedEntries (HandlersV1.expandEntries rows)).1
        (RngV1.BuildWeightedEntries (HandlersV1.expandEntries rows)).2 u =
      .error .divideByZero) ∧
    (∀ (rand : Nat → Nat) (t : PrizeTier) (ts : List PrizeTier)
      (past : List String), 1 ≤ t.quantity →
      RngV1.DrawWinners rand (HandlersV1.expandEntries rows) (t :: ts) past =
        .error .divideByZero) := by
  have hpoints : ∀ e ∈ HandlersV1.expandEntries rows, e.points = 0 :=
    expand_aux_points rows [] (by simp)
  have htot : ((HandlersV1.expandEntries rows).map (·.points)).sum = 0 := by
    rw [List.sum_eq_zero]
    intro x hx
    obtain ⟨e, he, hxe⟩ := List.mem_map.mp hx
    rw [← hxe]
    exact hpoints e he
  have htot2 : (RngV1.BuildWeightedEntries (HandlersV1.expandEntries rows)).2 = 0 :=
    htot
  refine ⟨hpoints, ?_, htot2, ?_, ?_, ?_⟩
  · intro hvoid
    obtain ⟨r, rest, rfl⟩ := List.exists_cons_of_ne_nil hne
    have hlen := expand_aux_length (r :: rest) []
    have hvoid2 : ((r :: rest).foldl
        (fun acc row => acc ++ List.replicate row.points ⟨row.msisdn, 0⟩)
        ([] : List EligibleEntry)) = [] := hvoid
    rw [hvoid2] at hlen
    have := hpts r (by simp)
    simp only [List.length_nil, List.map_cons, List.sum_cons] at hlen
    omega
  · intro we hwe
    obtain ⟨p, hp, hw⟩ := mem_buildCum_weight we hwe
    rw [mem_sortLe] at hp
    obtain ⟨e, he, hpe⟩ := List.mem_map.mp hp
    rw [hw, ← hpe]
    exact hpoints e he
  · intro u
    simp [RngV1.pickOneMSISDN, htot2]
  · intro rand t ts past hq
    exact DrawWinnersV1_err (by rw [htot]) hq

/-- C10 witness: one request row with two points expands into two
zero-point entries; the derived pool has total weight 0 and the first
pick divides by zero. -/
theorem C10_csv_zero_weights_witness :
    (RngV1.BuildWeightedEntries
      (HandlersV1.expandEntries [⟨"08012345678", 2⟩])).2 = 0 ∧
    RngV1.DrawWinners (fun _ => 0)
      (HandlersV1.expandEntries [⟨"08012345678", 2⟩])
      [⟨1, "T", 10, 1, 0, 1⟩] [] = .error .divideByZero :=
  ⟨(C10_csv_zero_weights [⟨"08012345678", 2⟩] (by decide) (by decide)).2.2.1,
    (C10_csv_zero_weights [⟨"08012345678", 2⟩] (by decide)
      (by decide)).2.2.2.2.2 (fun _ => 0) ⟨1, "T", 10, 1, 0, 1⟩ [] []
      (by decide)⟩

end Promo
